import Mathlib

/-!
Shallow embedding of the lawalletio/card module (TypeScript) and proofs about it.

The definitions below are transcribed from the repository sources:

* `src/lib/card.ts`   — SUN verifier (`retrieveNtag424FromPC`), `generatePC`,
  `getLimits`, `getExtantPaymentRequestByUuid`, `addPaymentsForPaymentRequest`,
  `getCardDelegation`;
* `src/lib/utils.ts`  — `uuid2suuid`, `suuid2uuid`;
* `src/lib/event.ts`  — `validateDelegationConditions`;
* `src/lib/config.ts` — `buildCardDataPayload`, `buildCardDataEvent`;
* `src/rest/ntag424/patch.ts` — the OTC association handler;
* `src/rest/card/scan/get.ts` — `handleScan` / `handleExtendedScan`;
* `src/rest/card/pay/get.ts`  — `generateTransactionEvent` and its handler.

JavaScript strings are modelled through their character lists, JS objects used
as string-keyed dictionaries are modelled as association lists with distinct
keys, Buffers as `List Nat` of byte values, and the database as explicit record
state.  AES and CMAC are modelled as opaque function parameters of a
`CryptoEnv`, since the claims only depend on how the code composes them.
-/

namespace CardModule

/-! ## Characters, character classes (regex character sets), hex digits -/

/-- Lowercase hexadecimal alphabet, i.e. the regex character class `[a-f0-9]`
(written out in the order used for digit lookup). -/
def lowerHexChars : List Char :=
  ['0', '1', '2', '3', '4', '5', '6', '7'] ++
    ['8', '9', 'a', 'b', 'c', 'd', 'e', 'f']

/-- Uppercase hexadecimal alphabet, i.e. the regex character class `[A-F0-9]`. -/
def upperHexChars : List Char :=
  ['0', '1', '2', '3', '4', '5', '6', '7', '8', '9', 'A', 'B', 'C', 'D', 'E', 'F']

/-- Decimal digit characters, the regex class `[0-9]`. -/
def digitChars : List Char :=
  ['0', '1', '2', '3', '4', '5', '6', '7', '8', '9']

/-- Membership in the class `[a-f0-9]`. -/
def isLowerHexChar (c : Char) : Bool := lowerHexChars.contains c

/-- Membership in the class `[A-F0-9]`. -/
def isUpperHexChar (c : Char) : Bool := upperHexChars.contains c

/-- Membership in the case-insensitive class `[a-f0-9]` with the `i` flag. -/
def isHexAnyChar (c : Char) : Bool := isLowerHexChar c || isUpperHexChar c

/-- Membership in `[0-9]`. -/
def isDigitChar (c : Char) : Bool := digitChars.contains c

/-- Membership in `[1-9]` (leading digit of the `parseInt`-able groups in the
delegation-conditions patterns). -/
def isNonZeroDigitChar (c : Char) : Bool :=
  (['1', '2', '3', '4', '5', '6', '7', '8', '9'] : List Char).contains c

/-- Numeric value of a hexadecimal digit character (as `Buffer.from(_, 'hex')`
and `parseInt(_, 16)` interpret it); unspecified on non-hex characters. -/
def hexDigitVal (c : Char) : Nat :=
  if 97 ≤ c.toNat then c.toNat - 87
  else if 65 ≤ c.toNat then c.toNat - 55
  else c.toNat - 48

/-- The lowercase hex digit character for a value `< 16`. -/
def lowerHexDigit (d : Nat) : Char := lowerHexChars.getD d '0'

/-- The uppercase hex digit character for a value `< 16`. -/
def upperHexDigit (d : Nat) : Char := upperHexChars.getD d '0'

/-- ASCII `toLowerCase` on one character (all strings manipulated by the
claims are ASCII). -/
def charToLower (c : Char) : Char :=
  if 65 ≤ c.toNat && c.toNat ≤ 90 then Char.ofNat (c.toNat + 32) else c

/-- ASCII `toUpperCase` on one character. -/
def charToUpper (c : Char) : Char :=
  if 97 ≤ c.toNat && c.toNat ≤ 122 then Char.ofNat (c.toNat - 32) else c

/-- JavaScript `s.toLowerCase()`. -/
def strToLower (s : String) : String := String.mk (s.data.map charToLower)

/-- JavaScript `s.toUpperCase()`. -/
def strToUpper (s : String) : String := String.mk (s.data.map charToUpper)

/-- Byte list of `Buffer.from(s, 'hex')`: consecutive pairs of hex digits;
a trailing unpaired character is dropped. -/
def bytesOfHexChars : List Char → List Nat
  | c1 :: c2 :: rest => (16 * hexDigitVal c1 + hexDigitVal c2) :: bytesOfHexChars rest
  | _ => []

/-- `Buffer.from(s, 'hex')` on a string. -/
def bytesOfHexS (s : String) : List Nat := bytesOfHexChars s.data

/-- The two lowercase hex characters of one byte (`buffer.toString('hex')`
processes each byte like this). -/
def hexPairOfByte (b : Nat) : List Char :=
  [lowerHexDigit ((b % 256) / 16), lowerHexDigit (b % 16)]

/-- `buffer.toString('hex')` — lowercase hex characters of a byte list. -/
def lowerHexOfBytes (bs : List Nat) : List Char := (bs.map hexPairOfByte).flatten

/-! ## Positional number systems (shared by the hex and base-64 codecs) -/

/-- Fold a most-significant-first digit list into its value in base `B`
(the shape of all the `reduce((acc, curr) => acc * B + curr)` calls). -/
def valB (B : Nat) (l : List Nat) : Nat := l.foldl (fun a d => B * a + d) 0

/-- Fuel-driven helper for `digitsB`; the fuel only serves structural
termination and is irrelevant as soon as it bounds the argument. -/
def digitsBAux (B : Nat) : Nat → Nat → List Nat
  | 0, n => [n]
  | fuel + 1, n =>
    if n < B ∨ B ≤ 1 then [n] else digitsBAux B fuel (n / B) ++ [n % B]

/-- Most-significant-first digits of `n` in base `B` (`n.toString(B)`
and the do-while loop of `uuid2suuid` produce exactly this; at least one
digit is always produced). -/
def digitsB (B n : Nat) : List Nat := digitsBAux B n n

/-- Left padding as in JavaScript `padStart`. -/
def padLeftList (k : Nat) (c : Char) (l : List Char) : List Char :=
  List.replicate (k - l.length) c ++ l

/-- `n.toString(16)` — minimal lowercase hex representation. -/
def natToHexChars (n : Nat) : List Char := (digitsB 16 n).map lowerHexDigit

/-! ## The suuid codec (`src/lib/utils.ts`): `uuid2suuid` / `suuid2uuid` -/

/-- The 64-character alphabet `sAlpha` of `src/lib/utils.ts`
(`A-Z a-z 0-9 - _`, in that order). -/
def sAlphaChars : List Char :=
  ['A', 'B', 'C', 'D', 'E', 'F', 'G', 'H', 'I', 'J', 'K', 'L', 'M',
   'N', 'O', 'P', 'Q', 'R', 'S', 'T', 'U', 'V', 'W', 'X', 'Y', 'Z',
   'a', 'b', 'c', 'd', 'e', 'f', 'g', 'h', 'i', 'j', 'k', 'l', 'm',
   'n', 'o', 'p', 'q', 'r', 's', 't', 'u', 'v', 'w', 'x', 'y', 'z',
   '0', '1', '2', '3', '4', '5', '6', '7', '8', '9', '-', '_']

/-- The anchored regex `uuidRegex = /^[a-f0-9]{8}-[a-f0-9]{4}-[a-f0-9]{4}-[a-f0-9]{4}-[a-f0-9]{12}$/gi`
of `src/lib/utils.ts`, written positionally (the `i` flag makes the classes
case-insensitive). -/
def matchesUuidRegex (l : List Char) : Bool :=
  decide (l.length = 36) &&
  (l.take 8).all isHexAnyChar && ((l.drop 8).take 1 == ['-']) &&
  ((l.drop 9).take 4).all isHexAnyChar && ((l.drop 13).take 1 == ['-']) &&
  ((l.drop 14).take 4).all isHexAnyChar && ((l.drop 18).take 1 == ['-']) &&
  ((l.drop 19).take 4).all isHexAnyChar && ((l.drop 23).take 1 == ['-']) &&
  ((l.drop 24).take 12).all isHexAnyChar

/-- The v4-UUID shape of claim C7: groups of 8-4-4-4-12 *lowercase* hex
characters separated by dashes. -/
def isLowerUuidShape (l : List Char) : Bool :=
  decide (l.length = 36) &&
  (l.take 8).all isLowerHexChar && ((l.drop 8).take 1 == ['-']) &&
  ((l.drop 9).take 4).all isLowerHexChar && ((l.drop 13).take 1 == ['-']) &&
  ((l.drop 14).take 4).all isLowerHexChar && ((l.drop 18).take 1 == ['-']) &&
  ((l.drop 19).take 4).all isLowerHexChar && ((l.drop 23).take 1 == ['-']) &&
  ((l.drop 24).take 12).all isLowerHexChar

/-- Transcribes `uuid2suuid` of `src/lib/utils.ts`: reject non-UUID shapes,
fold the dash-less hex byte pairs into a 128-bit number (`reduce` with the
first byte as seed equals a fold from `0`), emit base-64 digits MSB-first
(the do-while loop), and left-pad with `sAlpha[0] = 'A'` to 22 characters. -/
def uuid2suuid (uuid : String) : Option String :=
  if matchesUuidRegex uuid.data then
    some (String.mk (padLeftList 22 'A'
      ((digitsB 64 (valB 256 (bytesOfHexChars (uuid.data.filter (fun c => c != '-'))))).map
        (fun d => sAlphaChars.getD d 'A'))))
  else none

/-- Dash insertion performed by the tail of `suuid2uuid`
(`substring(0,8) + "-" + substring(8,12) + ...` on the padded hex string). -/
def uuidFromHex32 (l : List Char) : List Char :=
  l.take 8 ++ '-' :: ((l.drop 8).take 4 ++ '-' :: ((l.drop 12).take 4 ++
    '-' :: ((l.drop 16).take 4 ++ '-' :: (l.drop 20).take 12)))

/-- Transcribes `suuid2uuid` of `src/lib/utils.ts`: reject strings with a
character outside `sAlpha` (and the empty string, for which `match(/./g)`
returns `null`), fold base-64 values via `sAlpha.indexOf`, reject values
above `2^128 - 1`, then format `n.toString(16).padStart(32, '0')` with
dashes re-inserted. -/
def suuid2uuid (suuid : String) : Option String :=
  if suuid.data.isEmpty || !(suuid.data.all (fun c => sAlphaChars.contains c)) then
    none
  else
    let n := valB 64 (suuid.data.map (fun c => sAlphaChars.indexOf c))
    if 340282366920938463463374607431768211455 < n then none
    else some (String.mk (uuidFromHex32 (padLeftList 32 '0' (natToHexChars n))))

/-! ## Data model (the prisma schema rows used by the claims) -/

/-- Row of the `ntag424s` table. -/
structure Ntag424 where
  cid : String
  k1 : String
  k2 : String
  ctr : Nat
  otc : Option String
  designUuid : String
deriving DecidableEq

/-- Row of the `cards` table. -/
structure Card where
  uuid : String
  name : String
  description : String
  enabled : Bool
  ntag424Cid : String
  holderPubKey : Option String
deriving DecidableEq

/-- Row of the `limits` table (amounts are `BigInt`s, modelled as `Int`). -/
structure Limit where
  uuid : String
  cardUuid : String
  token : String
  amount : Int
  delta : Int
deriving DecidableEq

/-- Row of the `payments` table. -/
structure Payment where
  cardUuid : String
  token : String
  amount : Int
  paymentRequestUuid : String
  createdAt : Int
deriving DecidableEq

/-- The JSON `response` column of a payment request, as the pay handler reads
it (`paymentRequest.response as ScanResponseBasic`): a `tag` and an optional
`maxWithdrawable` (the property is absent — `none` — when the stored scan
response carried no BTC limit entry or was an extended response). -/
structure StoredResponse where
  tag : String
  maxWithdrawable : Option Int
deriving DecidableEq

/-- Row of the `payment_requests` table. -/
structure PaymentRequest where
  uuid : String
  cardUuid : String
  response : StoredResponse
  createdAt : Int
deriving DecidableEq

/-- Row of the `delegations` table. -/
structure Delegation where
  delegatorPubKey : String
  conditions : String
  delegationToken : String
  since : Int
  until_ : Int
deriving DecidableEq

/-- Row of the `designs` table. -/
structure Design where
  uuid : String
  name : String
  description : String
deriving DecidableEq

/-- The relational store. -/
structure DB where
  ntag424s : List Ntag424
  cards : List Card
  limits : List Limit
  payments : List Payment
  paymentRequests : List PaymentRequest
  delegations : List Delegation
  designs : List Design
deriving DecidableEq

/-- AES-128 and AES-CMAC primitives (external `crypto` / `aes-cmac`
libraries), abstracted as byte-list functions `key → message → output`.
The claims only concern how the module composes them. -/
structure CryptoEnv where
  aesEncrypt : List Nat → List Nat → List Nat
  aesDecrypt : List Nat → List Nat → List Nat
  aesCmac : List Nat → List Nat → List Nat

/-! ## SUN verifier and `generatePC` (`src/lib/card.ts`) -/

/-- The 6-byte `sv2prefix` constant `3c c3 00 01 00 80`. -/
def sv2Header : List Nat := [0x3c, 0xc3, 0x00, 0x01, 0x00, 0x80]

/-- `Buffer.from([cmacBytes[1], cmacBytes[3], ..., cmacBytes[15]])`:
the odd-indexed bytes of a MAC; out-of-range indices read as `0` and
`Buffer.from` coerces entries to bytes. -/
def oddIndexBytes (mac : List Nat) : List Nat :=
  [mac.getD 1 0 % 256, mac.getD 3 0 % 256, mac.getD 5 0 % 256, mac.getD 7 0 % 256,
   mac.getD 9 0 % 256, mac.getD 11 0 % 256, mac.getD 13 0 % 256, mac.getD 15 0 % 256]

/-- The `sdmmac` helper of `src/lib/card.ts`: CMAC under `k2` of
`sv2prefix || cid || ctr`, an outer CMAC of the empty message under that
result, compressed to its odd-indexed bytes, as a lowercase hex string
(the source's final `.toLowerCase()` is a no-op on hex output). -/
def sdmmac (env : CryptoEnv) (k2 : String) (cid ctr : List Nat) : String :=
  String.mk (lowerHexOfBytes (oddIndexBytes
    (env.aesCmac (env.aesCmac (bytesOfHexS k2) (sv2Header ++ cid ++ ctr)) [])))

/-- The `Ntag424Error` enum of `src/lib/card.ts`. -/
inductive Ntag424Error where
  | malformedP_notHex
  | malformedP_noPrefix
  | malformedP_counterTooOld
  | malformedC_notHex
  | malformedC_sdmmacMismatch
  | noSuitableCard
deriving DecidableEq

/-- The anchored regex `/^[A-F0-9]{32}$/` applied to `p`. -/
def pShape (p : String) : Bool := decide (p.length = 32) && p.data.all isUpperHexChar

/-- The anchored regex `/^[A-F0-9]{16}$/` applied to `c`. -/
def cShape (c : String) : Bool := decide (c.length = 16) && c.data.all isUpperHexChar

/-- Bytes of `decrypt(k1, p)` — AES-128-CBC decryption with zero IV and no
padding of the 16-byte blob; being a `Buffer`, its entries are bytes. -/
def decryptedP (env : CryptoEnv) (k1Hex : String) (p : String) : List Nat :=
  (env.aesDecrypt (bytesOfHexS k1Hex) (bytesOfHexS p)).map (· % 256)

/-- `pBytes.subarray(1, 8)` — the 7 card-id bytes. -/
def cidBytesOfP (env : CryptoEnv) (k1Hex : String) (p : String) : List Nat :=
  ((decryptedP env k1Hex p).drop 1).take 7

/-- `pBytes.subarray(8, 11)` — the 3 counter bytes. -/
def ctrBytesOfP (env : CryptoEnv) (k1Hex : String) (p : String) : List Nat :=
  ((decryptedP env k1Hex p).drop 8).take 3

/-- `cidBytes.toString('hex').toLowerCase()`. -/
def cidOfP (env : CryptoEnv) (k1Hex : String) (p : String) : String :=
  String.mk (lowerHexOfBytes (cidBytesOfP env k1Hex p))

/-- `(ctrBytes[2] << 16) | (ctrBytes[1] << 8) | ctrBytes[0]` — the byte
values are `< 256`, so shift-or equals this sum. -/
def ctrNewOfP (env : CryptoEnv) (k1Hex : String) (p : String) : Nat :=
  (ctrBytesOfP env k1Hex p).getD 2 0 * 65536 +
    (ctrBytesOfP env k1Hex p).getD 1 0 * 256 +
    (ctrBytesOfP env k1Hex p).getD 0 0

/-- `prisma.ntag424.findUnique({ where: { cid: cid, k1: k1 } })`. -/
def findNtag424 (db : DB) (k1Hex cid : String) : Option Ntag424 :=
  db.ntag424s.find? (fun n => n.cid == cid && n.k1 == k1Hex)

/-- `prisma.ntag424.update({ where: { cid, k1 }, data: { ctr } })`. -/
def updateNtagCtr (db : DB) (k1Hex cid : String) (ctr : Nat) : DB :=
  { db with
    ntag424s := db.ntag424s.map fun m =>
      if m.cid == cid && m.k1 == k1Hex then { m with ctr := ctr } else m }

/-- Transcribes `retrieveNtag424FromPC` of `src/lib/card.ts` (the variant
taking the prisma handle, whose counter check is `ctrNew <= ctrOld`): shape
checks on `p` and `c`, AES decryption, `0xC7` prefix, NTAG lookup by
`(cid, k1)`, strict counter monotonicity, SDMMAC comparison, and the
counter update persisted on success. -/
def retrieveNtag424FromPC (env : CryptoEnv) (k1Hex : String) (db : DB)
    (p c : Option String) : Except Ntag424Error (Ntag424 × DB) :=
  match p, c with
  | none, _ => .error .malformedP_notHex
  | some p, none =>
    if pShape p then .error .malformedC_notHex else .error .malformedP_notHex
  | some p, some c =>
    if pShape p then
      if cShape c then
        if (decryptedP env k1Hex p).getD 0 0 = 0xc7 then
          match findNtag424 db k1Hex (cidOfP env k1Hex p) with
          | none => .error .noSuitableCard
          | some ntag =>
            if ctrNewOfP env k1Hex p ≤ ntag.ctr then .error .malformedP_counterTooOld
            else if strToLower c =
                sdmmac env ntag.k2 (cidBytesOfP env k1Hex p) (ctrBytesOfP env k1Hex p) then
              .ok (ntag, updateNtagCtr db k1Hex (cidOfP env k1Hex p) (ctrNewOfP env k1Hex p))
            else .error .malformedC_sdmmacMismatch
        else .error .malformedP_noPrefix
      else .error .malformedC_notHex
    else .error .malformedP_notHex

/-- `Buffer.from(ctr.toString(16).padStart(6, '0'), 'hex')` — the three
big-endian counter bytes of `generatePC`. -/
def ctrBytesBE (ctr : Nat) : List Nat :=
  bytesOfHexChars (padLeftList 6 '0' (natToHexChars ctr))

/-- `cidCtr = Buffer.from([...Buffer.from(cid, 'hex'), ctrBytes[2], ctrBytes[1], ctrBytes[0]])`. -/
def piccCidCtr (cid : String) (ctr : Nat) : List Nat :=
  bytesOfHexS cid ++
    [(ctrBytesBE ctr).getD 2 0, (ctrBytesBE ctr).getD 1 0, (ctrBytesBE ctr).getD 0 0]

/-- `plaintextAes = Buffer.from([0xc7, ...cidCtr, ...Buffer.from(pad, 'hex')])`. -/
def piccPlaintext (cid : String) (ctr : Nat) (pad : String) : List Nat :=
  0xc7 :: (piccCidCtr cid ctr ++ bytesOfHexS pad)

/-- Transcribes `generatePC` of `src/lib/card.ts`.  The `pad === null`
branch draws 5 random bytes; the caller-supplied `pad` argument stands for
that draw, so the model takes `pad` as given.  `ctr < 0` cannot occur for a
`Nat`.  The guards are the case-insensitive anchored hex regexes of the
source, evaluated in the order of its `||` chain. -/
def generatePC (env : CryptoEnv) (k1Hex k2 cid : String) (ctr : Nat) (pad : String) :
    Option (String × String) :=
  if decide (k2.length = 32) && k2.data.all isHexAnyChar then
    if decide (cid.length = 14) && cid.data.all isHexAnyChar then
      if ctr ≤ 0xffffff then
        if decide (pad.length = 10) && pad.data.all isHexAnyChar then
          some
            (strToUpper (String.mk (lowerHexOfBytes
              ((env.aesEncrypt (bytesOfHexS k1Hex) (piccPlaintext cid ctr pad)).map (· % 256)))),
             strToUpper (String.mk (lowerHexOfBytes (oddIndexBytes
              (env.aesCmac (env.aesCmac (bytesOfHexS k2)
                (sv2Header ++ piccCidCtr cid ctr)) [])))))
        else none
      else none
    else none
  else none

/-- A store holding exactly one NTAG row (used to state the round-trip
claim about the verifier). -/
def dbOfNtag (n : Ntag424) : DB :=
  { ntag424s := [n], cards := [], limits := [], payments := [],
    paymentRequests := [], delegations := [], designs := [] }

/-! ## Concrete fixtures used by the witnesses -/

/-- A concrete crypto environment for witnesses: identity block cipher and a
constant all-zero MAC. -/
def idCryptoEnv : CryptoEnv :=
  { aesEncrypt := fun _ m => m
    aesDecrypt := fun _ m => m
    aesCmac := fun _ _ => List.replicate 16 0 }

/-- A concrete module key (hex). -/
def k1W : String := "00000000000000000000000000000000"

/-- A concrete stored NTAG row with counter 9. -/
def ntagW : Ntag424 :=
  { cid := "01020304050607", k1 := k1W, k2 := "00000000000000000000000000000000",
    ctr := 9, otc := none, designUuid := "d" }

/-- A concrete card id (14 lowercase hex characters). -/
def cidW : String := "f0da0000000010"

/-- A concrete stored NTAG row for `cidW` with counter 3. -/
def ntagW2 : Ntag424 :=
  { cid := cidW, k1 := k1W, k2 := k1W, ctr := 3, otc := none, designUuid := "d" }

/-! ## Limits, payment requests and payments (`src/lib/card.ts`) -/

/-- The module constant `defaultToken = 'BTC'`. -/
def defaultToken : String := "BTC"

/-- Reading a property of a JS object used as a string-keyed dictionary
(association list with distinct keys); `none` is `undefined`. -/
def assocLookup (l : List (String × Int)) (k : String) : Option Int :=
  (l.find? (fun r => r.1 == k)).map (fun r => r.2)

/-- The `COALESCE(SUM(p.amount), 0)` of the inner query of `getLimits`: the
summed amounts of the card's payments in a token within the last `delta`
seconds (`NOW() - MAKE_INTERVAL(SECS => l.delta) <= p.created_at`; the join
has no upper time bound). -/
def paymentsWindowSum (db : DB) (cardUuid token : String) (delta now : Int) : Int :=
  ((db.payments.filter (fun pm => pm.token == token && pm.cardUuid == cardUuid &&
      decide (now - delta ≤ pm.createdAt))).map (fun pm => pm.amount)).sum

/-- One inner-query row of `getLimits`: `l.amount - COALESCE(SUM(...), 0)`. -/
def limitRemaining (db : DB) (l : Limit) (now : Int) : Int :=
  l.amount - paymentsWindowSum db l.cardUuid l.token l.delta now

/-- Transcribes `getLimits` of `src/lib/card.ts`: default the token list to
`[defaultToken]`, evaluate the SQL — inner query producing one
`(token, remaining)` row per limit of the card whose token is requested
(`GROUP BY l.uuid`), outer query grouping by token with `MIN(remaining)`
and `HAVING 0 < MIN(remaining)` — and build the result object keyed by
token. -/
def getLimits (db : DB) (card : Card) (tokens : List String) (now : Int) :
    List (String × Int) :=
  let toks := if tokens.isEmpty then [defaultToken] else tokens
  let rows := (db.limits.filter
      (fun l => toks.contains l.token && l.cardUuid == card.uuid)).map
    (fun l => (l.token, limitRemaining db l now))
  ((rows.map Prod.fst).dedup).filterMap fun t =>
    match (rows.filter (fun r => r.1 == t)).map Prod.snd with
    | [] => none
    | r :: rs => if 0 < rs.foldl min r then some (t, rs.foldl min r) else none

/-- Transcribes `getExtantPaymentRequestByUuid` of `src/lib/card.ts`:
`findUnique` by uuid with the extra filters
`createdAt > Date.now() - paymentRequestExpiryInSeconds * 1000` and
`payments: { none: {} }`, including the (required) related card. -/
def getExtantPaymentRequestByUuid (expirySeconds nowMs : Int) (db : DB)
    (uuid : String) : Option (PaymentRequest × Card) :=
  match db.paymentRequests.find? (fun r => r.uuid == uuid) with
  | none => none
  | some pr =>
    if decide (nowMs - expirySeconds * 1000 < pr.createdAt)
        && !(db.payments.any (fun pm => pm.paymentRequestUuid == pr.uuid)) then
      (db.cards.find? (fun cd => cd.uuid == pr.cardUuid)).map (fun cd => (pr, cd))
    else none

/-- Transcribes `addPaymentsForPaymentRequest` of `src/lib/card.ts`:
`createMany` of one `Paid` payment row per entry of the tokens object,
referencing the payment request and its card; `createdAt` is the database
default `now()`, taken as a parameter. -/
def addPaymentsForPaymentRequest (db : DB) (paymentRequest : PaymentRequest)
    (tokens : List (String × Int)) (createdAt : Int) : DB :=
  { db with
    payments := db.payments ++ tokens.map fun x =>
      { cardUuid := paymentRequest.cardUuid, token := x.1, amount := x.2,
        paymentRequestUuid := paymentRequest.uuid, createdAt := createdAt } }

/-- Transcribes `getCardDelegation` of `src/lib/card.ts`: look up the card,
require a holder, and `findFirst` a delegation of that holder with
`since <= now <= until`. -/
def getCardDelegation (db : DB) (nowMs : Int) (cardUuid : String) :
    Option Delegation :=
  match db.cards.find? (fun cd => cd.uuid == cardUuid) with
  | none => none
  | some card =>
    match card.holderPubKey with
    | none => none
    | some h =>
      db.delegations.find? fun d =>
        d.delegatorPubKey == h && decide (d.since ≤ nowMs) && decide (nowMs ≤ d.until_)

/-! ## The standard pay callback (`src/rest/card/pay/get.ts`) -/

/-- A JavaScript number that is either `NaN` or an integer (the only values
arising in the handler). -/
inductive JsNum where
  | nan
  | num (n : Int)
deriving DecidableEq

/-- A JS object field that may be `undefined`, `null`, or present. -/
inductive JsField (α : Type) where
  | undef
  | jsnull
  | val (a : α)
deriving DecidableEq

/-- The slice of the `bolt11` library's decode result read by the handler
(`millisatoshis?: string | null`, `satoshis?: number | null`,
`timeExpireDate?: number`; for the last only `?? 0` is applied, so
`undefined` and `null` coincide). -/
structure Bolt11 where
  millisatoshis : JsField String
  satoshis : JsField Int
  timeExpireDate : Option Int

/-- `parseInt(s, 10)` on the strings arising here: value of the maximal
leading run of decimal digits, `NaN` if there is none. -/
def parseIntJs (s : String) : JsNum :=
  let ds := s.data.takeWhile isDigitChar
  if ds.isEmpty then .nan
  else .num (valB 10 (ds.map (fun ch => ch.toNat - 48)) : Nat)

/-- JavaScript `<` on numbers: any comparison against `NaN` is false. -/
def jsLtNum : JsNum → JsNum → Bool
  | .num a, .num b => decide (a < b)
  | _, _ => false

/-- JavaScript `<` where the left side is an object property that may be
absent (`undefined`): false when absent or when the right side is `NaN`. -/
def jsLtOptNum : Option Int → JsNum → Bool
  | some m, .num n => decide (m < n)
  | _, _ => false

/-- External inputs of the pay handler: the bolt11 decoder, the balances
fetched from the ledger events bus (`fetchBalances`), the two clock reads
(`nowInSeconds()` and `Date.now()`), the configured payment-request expiry
and the insertion timestamp of new payment rows. -/
structure PayEnv where
  decode : String → Bolt11
  balances : String → String → Option Int
  nowSec : Int
  nowMs : Int
  expirySeconds : Int
  paymentCreatedAt : Int

/-- Transcribes `extractMsatsFromBolt11PR` of `src/rest/card/pay/get.ts`:
prefer `millisatoshis` (strict `null !==` check, then `?? ''` into
`parseInt`), else `1000 * (satoshis ?? 0)`, else `null`; reject when
`null` or when `(timeExpireDate ?? 0) < nowInSeconds()`. -/
def extractMsatsFromBolt11PR (env : PayEnv) (pr : String) : Option JsNum :=
  let d := env.decode pr
  let msats : Option JsNum :=
    match d.millisatoshis with
    | .jsnull =>
      match d.satoshis with
      | .jsnull => none
      | .undef => some (.num (1000 * 0))
      | .val n => some (.num (1000 * n))
    | .undef => some (parseIntJs "")
    | .val s => some (parseIntJs s)
  match msats with
  | none => none
  | some v => if d.timeExpireDate.getD 0 < env.nowSec then none else some v

/-- The `TransactionError` enum of `src/rest/card/pay/get.ts`. -/
inductive TransactionError where
  | invalidK1OrPr
  | couldNotExtractAmount
  | couldNotParseK1
  | couldNotFindPaymentRequest
  | noCardHolder
  | invalidTag
  | invalidAmount
  | exceededLimit
  | exceededBalance
  | missingDelegation
deriving DecidableEq

/-- The published `internal-transaction-start` event: creation time, the
amount serialized into the content `{"tokens":{"BTC": msats}}`, the
`bolt11` tag, the `delegation` tag, and kind 1112. -/
structure TxEvent where
  createdAt : Int
  msats : JsNum
  bolt11 : String
  delegation : Delegation
  kind : Nat
deriving DecidableEq

/-- Transcribes `generateTransactionEvent` of `src/rest/card/pay/get.ts`
(the variant with the ledger balance check): parameter checks, amount
extraction, suuid decoding, extant-payment-request lookup with card,
holder check, `withdrawRequest` tag, `maxWithdrawable < msats`,
`(limits[BTC] ?? 0) < msats`, `(balance[BTC] ?? 0) < msats`, delegation,
then payment insertion and the event.  The un-awaited
`addPaymentsForPaymentRequest` call throws inside its own promise on
`BigInt(NaN)`, so a `NaN` amount inserts no row while the event is still
returned. -/
def generateTransactionEvent (env : PayEnv) (db : DB) (k1 pr : Option String) :
    Except TransactionError (TxEvent × DB) :=
  match k1, pr with
  | some k1s, some prs =>
    (match extractMsatsFromBolt11PR env prs with
    | none => .error .couldNotExtractAmount
    | some msats =>
      match suuid2uuid k1s with
      | none => .error .couldNotParseK1
      | some paymentUuid =>
        match getExtantPaymentRequestByUuid env.expirySeconds env.nowMs db paymentUuid with
        | none => .error .couldNotFindPaymentRequest
        | some (paymentRequest, card) =>
          match card.holderPubKey with
          | none => .error .noCardHolder
          | some holder =>
            if paymentRequest.response.tag ≠ "withdrawRequest" then
              .error .invalidTag
            else if jsLtOptNum paymentRequest.response.maxWithdrawable msats then
              .error .invalidAmount
            else if jsLtNum
                (.num ((assocLookup (getLimits db card [defaultToken] env.nowSec)
                  defaultToken).getD 0)) msats then
              .error .exceededLimit
            else if jsLtNum (.num ((env.balances holder defaultToken).getD 0)) msats then
              .error .exceededBalance
            else
              match getCardDelegation db env.nowMs paymentRequest.cardUuid with
              | none => .error .missingDelegation
              | some delegation =>
                let db' := match msats with
                  | .num n => addPaymentsForPaymentRequest db paymentRequest
                      [(defaultToken, n)] env.paymentCreatedAt
                  | .nan => db
                .ok ({ createdAt := env.nowSec, msats := msats, bolt11 := prs,
                       delegation := delegation, kind := 1112 }, db'))
  | _, _ => .error .invalidK1OrPr

/-- The HTTP handler of `GET /card/pay`: 400 with no state change on any
`generateTransactionEvent` error, 200 after publishing on success (outbox
publication is external; its failure path returns 500 and is outside the
claims). -/
def payGetHandler (env : PayEnv) (db : DB) (k1 pr : Option String) : Nat × DB :=
  match generateTransactionEvent env db k1 pr with
  | .error _ => (400, db)
  | .ok (_, db') => (200, db')

/-! ## The scan handlers (`src/rest/card/scan/get.ts`) -/

/-- `checkStatus`: the card is enabled and has a holder. -/
def checkStatus (card : Card) : Bool := card.enabled && card.holderPubKey.isSome

/-- The guard `0 === limits.length` of the scan handlers: `limits` is a
plain object, so `.length` is a property lookup on it — `undefined`
(making the comparison false) unless a token is literally named
`length`. -/
def jsObjLengthIsZero (limits : List (String × Int)) : Bool :=
  match assocLookup limits "length" with
  | some v => v == 0
  | none => false

/-- Request-independent inputs of the scan handlers: crypto, module key,
`LAWALLET_API_BASE_URL`, the SQL clock of `getLimits`, and the fresh v4
uuid (with creation time) that `prisma.paymentRequest.create` assigns. -/
structure ScanEnv where
  cenv : CryptoEnv
  k1Hex : String
  apiBaseUrl : String
  sqlNow : Int
  newUuid : String
  prCreatedAt : Int

/-- The JSON body of a scan response: standard responses carry
`minWithdrawable`/`maxWithdrawable` (absent — `none` — when
`tokensResponse[defaultToken]` is `undefined` and the spread adds
nothing), extended responses carry the per-token map. -/
structure ScanResponseM where
  tag : String
  callback : String
  defaultDescription : String
  minWithdrawable : Option Int
  maxWithdrawable : Option Int
  tokens : Option (List (String × (Int × Int)))
  k1 : String
deriving DecidableEq

/-- Outcome of a scan handler: a 400 with a reason, or a 200 response. -/
inductive ScanOutcome where
  | badRequest (reason : String)
  | okResponse (resp : ScanResponseM)
deriving DecidableEq

/-- Transcribes `handleScan` of `src/rest/card/scan/get.ts`: SUN
verification, card lookup by `ntag424Cid`, `checkStatus`, `getLimits` for
the default token, the (vacuous) `0 === limits.length` guard, response
assembly — `tokensResponse[defaultToken]` spread into the standard
response — and creation of the payment request whose suuid becomes `k1`
(`?? ''`). -/
def handleScan (env : ScanEnv) (db : DB) (p c : Option String) : ScanOutcome × DB :=
  match retrieveNtag424FromPC env.cenv env.k1Hex db p c with
  | .error _ => (.badRequest "Failed to retrieve card data", db)
  | .ok (ntag, db1) =>
    match db1.cards.find? (fun cd => cd.ntag424Cid == ntag.cid) with
    | none => (.badRequest "Failed to retrieve card data", db1)
    | some card =>
      if !(checkStatus card) then (.badRequest "Card disabled", db1)
      else
        let limits := getLimits db1 card [defaultToken] env.sqlNow
        if jsObjLengthIsZero limits then (.badRequest "Limits exceeded", db1)
        else
          let resp : ScanResponseM :=
            { tag := "withdrawRequest", callback := env.apiBaseUrl ++ "/card/pay",
              defaultDescription := "LaWallet",
              minWithdrawable := (assocLookup limits defaultToken).map (fun _ => 0),
              maxWithdrawable := assocLookup limits defaultToken,
              tokens := none,
              k1 := (uuid2suuid env.newUuid).getD "" }
          let db2 := { db1 with
            paymentRequests := db1.paymentRequests ++
              [{ uuid := env.newUuid, cardUuid := card.uuid,
                 response := { tag := "withdrawRequest",
                               maxWithdrawable := assocLookup limits defaultToken },
                 createdAt := env.prCreatedAt }] }
          (.okResponse resp, db2)

/-- JavaScript `s.split(sep)` for a one-character separator, on character
lists (`''.split(sep)` gives `['']`). -/
def splitOnChar (sep : Char) : List Char → List (List Char)
  | [] => [[]]
  | ch :: rest =>
    if ch = sep then [] :: splitOnChar sep rest
    else
      match splitOnChar sep rest with
      | [] => [[ch]]
      | g :: gs => (ch :: g) :: gs

/-- JavaScript `s.trim()` restricted to ASCII spaces (the only whitespace
arising in the modelled headers). -/
def jsTrim (s : String) : String :=
  String.mk (((s.data.dropWhile (fun ch => ch = ' ')).reverse.dropWhile
    (fun ch => ch = ' ')).reverse)

/-- Transcribes `handleExtendedScan` of `src/rest/card/scan/get.ts`; the
`headerTokens` argument is `parseLaWalletHeaders(req)?.params?.tokens`. -/
def handleExtendedScan (env : ScanEnv) (headerTokens : Option String) (db : DB)
    (p c : Option String) : ScanOutcome × DB :=
  match retrieveNtag424FromPC env.cenv env.k1Hex db p c with
  | .error _ => (.badRequest "Failed to retrieve card data", db)
  | .ok (ntag, db1) =>
    match db1.cards.find? (fun cd => cd.ntag424Cid == ntag.cid) with
    | none => (.badRequest "Failed to retrieve card data", db1)
    | some card =>
      if !(checkStatus card) then (.badRequest "Failed to retrieve card data", db1)
      else
        let tokens := ((splitOnChar ':' (headerTokens.getD defaultToken).data).map
          String.mk).map jsTrim
        let limits := getLimits db1 card tokens env.sqlNow
        if jsObjLengthIsZero limits then (.badRequest "Limits exceeded", db1)
        else
          let resp : ScanResponseM :=
            { tag := "laWallet:withdrawRequest",
              callback := env.apiBaseUrl ++ "/card/pay",
              defaultDescription := "LaWallet",
              minWithdrawable := none, maxWithdrawable := none,
              tokens := some (limits.map (fun e => (e.1, ((0 : Int), e.2)))),
              k1 := (uuid2suuid env.newUuid).getD "" }
          let db2 := { db1 with
            paymentRequests := db1.paymentRequests ++
              [{ uuid := env.newUuid, cardUuid := card.uuid,
                 response := { tag := "laWallet:withdrawRequest", maxWithdrawable := none },
                 createdAt := env.prCreatedAt }] }
          (.okResponse resp, db2)

/-! ## The OTC association handler (`src/rest/ntag424/patch.ts`) -/

/-- Outcome of `PATCH /ntag424`: 404, the two 409 conflict bodies, or
204. -/
inductive PatchOutcome where
  | notFound
  | conflictOtc (old_otc : Option String) (new_otc : String)
  | conflictCid (old_ntag_cid new_ntag_cid : String)
  | noContent
deriving DecidableEq

/-- Transcribes the handler of `src/rest/ntag424/patch.ts` from the point
where the signed event carrying `{otc}` has been accepted and
`retrieveNtag424FromPC(p, c)` has produced `verified` (the NTAG, or
nothing on verification failure): on `(ntag424.otc ?? otc) !== otc` a 409
with `{old_otc, new_otc}`; otherwise `findFirst({ where: { otc } })` — with
no exclusion of the verified NTAG itself — yielding a 409 with
`{old_ntag_cid, new_ntag_cid}` when some row carries the otc; otherwise
the update and 204. -/
def ntag424PatchHandler (db : DB) (verified : Option Ntag424) (otc : String) :
    PatchOutcome × DB :=
  match verified with
  | none => (.notFound, db)
  | some ntag424 =>
    if ntag424.otc.getD otc ≠ otc then (.conflictOtc ntag424.otc otc, db)
    else
      match db.ntag424s.find? (fun m => m.otc == some otc) with
      | some oldNtag => (.conflictCid oldNtag.cid ntag424.cid, db)
      | none =>
        (.noContent,
         { db with
           ntag424s := db.ntag424s.map fun m =>
             if m.cid == ntag424.cid then { m with otc := some otc } else m })

/-! ## Delegation conditions (`src/lib/event.ts`) -/

/-- Result record of `validateDelegationConditions`. -/
structure DelegationConditions where
  kind : Nat
  since : Nat
  until_ : Nat
deriving DecidableEq

/-- The group `(?<ts>[1-9][0-9]*)` with `parseInt`: a nonzero digit
followed by digits. -/
def parsePositiveInt (l : List Char) : Option Nat :=
  match l with
  | [] => none
  | ch :: cs =>
    if isNonZeroDigitChar ch && cs.all isDigitChar then
      some (valB 10 ((ch :: cs).map (fun d => d.toNat - 48)))
    else none

/-- Full-string match of `/^kind=([1-9][0-9]*)$/`. -/
def matchKindCond (part : List Char) : Option Nat :=
  match part with
  | 'k' :: 'i' :: 'n' :: 'd' :: '=' :: rest => parsePositiveInt rest
  | _ => none

/-- Full-string match of `/^created_at>([1-9][0-9]*)$/`. -/
def matchSinceCond (part : List Char) : Option Nat :=
  match part with
  | 'c' :: 'r' :: 'e' :: 'a' :: 't' :: 'e' :: 'd' :: '_' :: 'a' :: 't' :: '>' :: rest =>
    parsePositiveInt rest
  | _ => none

/-- Full-string match of `/^created_at<([1-9][0-9]*)$/`. -/
def matchUntilCond (part : List Char) : Option Nat :=
  match part with
  | 'c' :: 'r' :: 'e' :: 'a' :: 't' :: 'e' :: 'd' :: '_' :: 'a' :: 't' :: '<' :: rest =>
    parsePositiveInt rest
  | _ => none

/-- One `exec` call of a `g`-flagged anchored regex, carrying its sticky
state: with `lastIndex` still at the end of a previous match (`primed`),
the `^` anchor cannot match and `lastIndex` resets; otherwise a full match
succeeds and sets `lastIndex` past the end (the three patterns never match
the empty string). -/
def execAnchoredGlobal (m : List Char → Option Nat) (primed : Bool)
    (part : List Char) : Option Nat × Bool :=
  if primed then (none, false)
  else
    match m part with
    | some v => (some v, true)
    | none => (none, false)

/-- The `for (const part of conditions.split('&'))` loop of
`validateDelegationConditions`, with the three regex objects' sticky
states threaded through (all three `exec` calls run on every
iteration). -/
def vdcLoop : List (List Char) → Bool → Bool → Bool →
    Option Nat → Option Nat → Option Nat →
    Option (Option Nat × Option Nat × Option Nat)
  | [], _, _, _, k, s, u => some (k, s, u)
  | part :: rest, ks, ss, us, k, s, u =>
    let mk := execAnchoredGlobal matchKindCond ks part
    let ms := execAnchoredGlobal matchSinceCond ss part
    let mu := execAnchoredGlobal matchUntilCond us part
    match mk.1 with
    | some v =>
      match k with
      | none => vdcLoop rest mk.2 ms.2 mu.2 (some v) s u
      | some _ => none
    | none =>
      match ms.1 with
      | some v =>
        match s with
        | none => vdcLoop rest mk.2 ms.2 mu.2 k (some v) u
        | some _ => none
      | none =>
        match mu.1 with
        | some v =>
          match u with
          | none => vdcLoop rest mk.2 ms.2 mu.2 k s (some v)
          | some _ => none
        | none => vdcLoop rest mk.2 ms.2 mu.2 k s u

/-- Transcribes `validateDelegationConditions` of `src/lib/event.ts`,
including the sticky `lastIndex` state of its module-level `g`-flagged
regexes.  The final checks: all three parts present (`parseInt` of a
matched group is never `NaN` here) and `since < until`. -/
def validateDelegationConditions (conditions : String) :
    Option DelegationConditions :=
  match vdcLoop (splitOnChar '&' conditions.data) false false false none none none with
  | none => none
  | some (k, s, u) =>
    match k, s, u with
    | some kv, some sv, some uv =>
      if uv ≤ sv then none else some { kind := kv, since := sv, until_ := uv }
    | _, _, _ => none

/-! ## The card-data event (`src/lib/config.ts`) -/

/-- A nostr event as the claims read it: kind, tags, and the plaintext
that the multi-recipient envelope in `content` carries. -/
structure NostrEventM where
  kind : Nat
  tags : List (List String)
  plaintextContent : String
deriving DecidableEq

/-- Modelled from the spec: `buildMultiNip04Event` is code of this
repository not present under `src/` (only its import in
`src/lib/config.ts`).  Per §4.6, it builds an event whose `content` is the
multi-recipient NIP-04 envelope of the given plaintext, one ciphertext per
recipient; the model records the carried plaintext, and no tags are
prescribed for the bare envelope (the callers append theirs). -/
def buildMultiNip04Event (plaintext : String) (_senderPrivKey _senderPubKey : String)
    (_recipients : List String) : NostrEventM :=
  { kind := 0, tags := [], plaintextContent := plaintext }

/-- Transcribes `buildCardDataPayload` of `src/lib/config.ts`: the map from
each card uuid owned by the holder to `{ design }` of the NTAG's design
(`findMany` with `select uuid, ntag424.design`; the relations are
required, so rows with broken references cannot occur). -/
def buildCardDataPayload (db : DB) (holderPubKey : String) : List (String × Design) :=
  db.cards.filterMap fun cd =>
    if cd.holderPubKey == some holderPubKey then
      (db.ntag424s.find? (fun n => n.cid == cd.ntag424Cid)).bind fun n =>
        (db.designs.find? (fun dg => dg.uuid == n.designUuid)).map fun dg => (cd.uuid, dg)
    else none

/-- `JSON.stringify` applied to the pending `Promise` that
`buildCardDataPayload(...)` returns when not awaited: a `Promise` is an
object with no own enumerable properties, so the result is the two-byte
string `"{}"`. -/
def jsonStringifyOfPromise : String := "\x7b\x7d"

/-- Transcribes `buildCardDataEvent` of `src/lib/config.ts`: the content
plaintext is `JSON.stringify(buildCardDataPayload(holderPubKey, prisma))`
— note the missing `await`, so the Promise object itself is serialized —
then kind 31111 and the `t`/`d` tags are set. -/
def buildCardDataEvent (cardPrivateKey cardPublicKey : String) (db : DB)
    (holderPubKey : String) : NostrEventM :=
  let event := buildMultiNip04Event jsonStringifyOfPromise cardPrivateKey cardPublicKey
    [cardPublicKey, holderPubKey]
  { event with
    kind := 31111,
    tags := event.tags ++ [["t", "card-data"], ["d", holderPubKey ++ ":card-data"]] }

/-- Decidable equality for `Except` results (used to evaluate the model on
concrete inputs). -/
instance {ε α : Type} [DecidableEq ε] [DecidableEq α] : DecidableEq (Except ε α) := fun a b =>
  match a, b with
  | .error e1, .error e2 =>
    if h : e1 = e2 then isTrue (by rw [h]) else isFalse (by intro hc; injection hc; contradiction)
  | .error _, .ok _ => isFalse (by intro hc; exact Except.noConfusion hc)
  | .ok _, .error _ => isFalse (by intro hc; exact Except.noConfusion hc)
  | .ok a1, .ok a2 =>
    if h : a1 = a2 then isTrue (by rw [h]) else isFalse (by intro hc; injection hc; contradiction)

/-- A JSON string literal (no escaping; the uuids, names and descriptions
involved contain no quotes). -/
def jsonStr (s : String) : String := "\"" ++ s ++ "\""

/-- The `{"uuid": ..., "name": ..., "description": ...}` serialization of a
design, per the documented card-data content. -/
def designJson (d : Design) : String :=
  "\x7b" ++ jsonStr "uuid" ++ ":" ++ jsonStr d.uuid ++ "," ++
    jsonStr "name" ++ ":" ++ jsonStr d.name ++ "," ++
    jsonStr "description" ++ ":" ++ jsonStr d.description ++ "\x7d"

/-- Modelled from the spec (§4.6 and the doc comment of
`buildCardDataEvent`): the JSON serialization of the card-data payload the
content is documented to carry —
`{ <cardUuid>: { "design": { "uuid", "name", "description" } }, ... }`. -/
def cardDataPayloadJson (payload : List (String × Design)) : String :=
  "\x7b" ++ String.intercalate ","
    (payload.map fun e =>
      jsonStr e.1 ++ ":" ++ "\x7b" ++ jsonStr "design" ++ ":" ++ designJson e.2 ++ "\x7d")
    ++ "\x7d"

/-! ## Further concrete fixtures for witnesses and failing inputs -/

/-- A concrete design row. -/
def designW : Design := { uuid := "du", name := "To the moon", description := "d" }

/-- A concrete card owned by holder `"holder"`, attached to `ntagW`. -/
def cardW9 : Card :=
  { uuid := "c1", name := "card", description := "", enabled := true,
    ntag424Cid := "01020304050607", holderPubKey := some "holder" }

/-- Store for the card-data scenario: one holder owning one card with a
design. -/
def db9 : DB :=
  { ntag424s := [{ ntagW with designUuid := "du" }], cards := [cardW9],
    limits := [], payments := [], paymentRequests := [], delegations := [],
    designs := [designW] }

/-- `ntagW` already associated with the one-time code `weirdcode`. -/
def ntagW3 : Ntag424 := { ntagW with otc := some "weirdcode" }

/-- A concrete extant payment request (zero uuid, created at 1000 ms). -/
def prW : PaymentRequest :=
  { uuid := "00000000-0000-0000-0000-000000000000", cardUuid := "cu",
    response := { tag := "withdrawRequest", maxWithdrawable := some 2000 },
    createdAt := 1000 }

/-- A concrete card for the pay scenario. -/
def cardW5 : Card :=
  { uuid := "cu", name := "card", description := "", enabled := true,
    ntag424Cid := cidW, holderPubKey := some "holder" }

/-- A concrete BTC limit of 5000 msats over 100 seconds. -/
def limitW : Limit :=
  { uuid := "lu", cardUuid := "cu", token := "BTC", amount := 5000, delta := 100 }

/-- A concrete currently-valid delegation of holder `"holder"`. -/
def delW : Delegation :=
  { delegatorPubKey := "holder", conditions := "kind=1112&created_at>1&created_at<9",
    delegationToken := "tok", since := 0, until_ := 2000 }

/-- Store for the pay scenario. -/
def db5 : DB :=
  { ntag424s := [], cards := [cardW5], limits := [limitW], payments := [],
    paymentRequests := [prW], delegations := [delW], designs := [] }

/-- Pay environment for the witness: a 1000-msat unexpired invoice and a
5000-msat ledger balance. -/
def env5 : PayEnv :=
  { decode := fun _ =>
      { millisatoshis := .val "1000", satoshis := .jsnull, timeExpireDate := some 10 }
    balances := fun _ _ => some 5000
    nowSec := 5, nowMs := 1000, expirySeconds := 60, paymentCreatedAt := 5 }

/-- Scan environment for the witness. -/
def env10 : ScanEnv :=
  { cenv := idCryptoEnv, k1Hex := k1W, apiBaseUrl := "api", sqlNow := 0,
    newUuid := "00000000-0000-0000-0000-000000000000", prCreatedAt := 0 }

/-- Store for the scan scenario: `ntagW`'s card is enabled with a holder
but has no limits, so `getLimits` returns the empty object. -/
def db10 : DB :=
  { ntag424s := [ntagW], cards := [cardW9], limits := [], payments := [],
    paymentRequests := [], delegations := [], designs := [] }

/-- The remaining amounts of one card's limits in one token — the inner
query of `getLimits` restricted to the rows of token `t` (each row is
`l.amount - COALESCE(SUM(payments in window), 0)`). -/
def cardTokenRemainings (db : DB) (card : Card) (t : String) (now : Int) : List Int :=
  (db.limits.filter (fun l => l.token == t && l.cardUuid == card.uuid)).map
    (fun l => limitRemaining db l now)

/-- The inner-query rows of `getLimits` — one `(token, remaining)` pair per
limit of the card whose token is requested (the `let rows` of the model,
with the defaulted token list inlined). -/
def limitRows (db : DB) (card : Card) (tokens : List String) (now : Int) :
    List (String × Int) :=
  (db.limits.filter (fun l =>
      (if tokens.isEmpty then [defaultToken] else tokens).contains l.token
        && l.cardUuid == card.uuid)).map
    (fun l => (l.token, limitRemaining db l now))

/-- The store expected after the scan witness's SUN verification bumps the
counter to 11. -/
def db10W : DB := { db10 with ntag424s := [{ ntagW with ctr := 11 }] }

/-- The transaction event expected in the pay witness scenario. -/
def txW : TxEvent :=
  { createdAt := 5, msats := .num 1000, bolt11 := "lnbc1", delegation := delW,
    kind := 1112 }

/-- The store expected after the witness payment is recorded. -/
def db5W : DB := addPaymentsForPaymentRequest db5 prW [(defaultToken, 1000)] 5

theorem valB_shift (B : Nat) (l : List Nat) (a : Nat) :
    l.foldl (fun x d => B * x + d) a = a * B ^ l.length + valB B l := by
  induction l generalizing a with
  | nil => simp [valB]
  | cons d t ih =>
    simp only [List.foldl_cons, List.length_cons, valB, Nat.mul_zero, Nat.zero_add]
    rw [ih (B * a + d), ih d]
    ring

theorem valB_append_singleton (B : Nat) (l : List Nat) (d : Nat) :
    valB B (l ++ [d]) = B * valB B l + d := by
  simp only [valB, List.foldl_append, List.foldl_cons, List.foldl_nil]

theorem valB_lt (B : Nat) (l : List Nat) (hd : ∀ d ∈ l, d < B) :
    valB B l < B ^ l.length := by
  induction l with
  | nil => simp [valB]
  | cons d t ih =>
    have hdB : d < B := hd d (by simp)
    have ht : valB B t < B ^ t.length := ih (fun x hx => hd x (by simp [hx]))
    have e : valB B (d :: t) = d * B ^ t.length + valB B t := by
      simp only [valB, List.foldl_cons, Nat.mul_zero, Nat.zero_add]
      exact valB_shift B t d
    rw [e, List.length_cons]
    calc d * B ^ t.length + valB B t
        < d * B ^ t.length + B ^ t.length := by omega
      _ = (d + 1) * B ^ t.length := by ring
      _ ≤ B * B ^ t.length := Nat.mul_le_mul_right _ (by omega)
      _ = B ^ (t.length + 1) := by rw [pow_succ]; ring

theorem valB_replicate_zero (B k : Nat) (l : List Nat) :
    valB B (List.replicate k 0 ++ l) = valB B l := by
  induction k with
  | zero => simp
  | succ k ih =>
    simp only [List.replicate_succ, List.cons_append, valB, List.foldl_cons]
    simpa [valB] using ih

theorem digitsBAux_congr (B : Nat) :
    ∀ {f g n : Nat}, n ≤ f → n ≤ g → digitsBAux B f n = digitsBAux B g n := by
  intro f
  induction f with
  | zero =>
    intro g n hf hg
    have hn0 : n = 0 := by omega
    subst hn0
    cases g with
    | zero => rfl
    | succ g =>
      simp only [digitsBAux]
      rw [if_pos (by omega : (0 : Nat) < B ∨ B ≤ 1)]
  | succ f ihf =>
    intro g n hf hg
    cases g with
    | zero =>
      have hn0 : n = 0 := by omega
      subst hn0
      simp only [digitsBAux]
      rw [if_pos (by omega : (0 : Nat) < B ∨ B ≤ 1)]
    | succ g =>
      simp only [digitsBAux]
      by_cases hb : n < B ∨ B ≤ 1
      · rw [if_pos hb, if_pos hb]
      · rw [if_neg hb, if_neg hb]
        have hdiv : n / B < n := Nat.div_lt_self (by omega) (by omega)
        congr 1
        exact ihf (g := g) (by omega) (by omega)

theorem digitsB_eq (B n : Nat) :
    digitsB B n = if n < B ∨ B ≤ 1 then [n] else digitsB B (n / B) ++ [n % B] := by
  cases n with
  | zero =>
    rw [if_pos (by omega : (0 : Nat) < B ∨ B ≤ 1)]
    rfl
  | succ m =>
    rw [digitsB]
    show digitsBAux B (m + 1) (m + 1) = _
    simp only [digitsBAux]
    by_cases hb : m + 1 < B ∨ B ≤ 1
    · rw [if_pos hb, if_pos hb]
    · rw [if_neg hb, if_neg hb]
      congr 1
      have hdiv : (m + 1) / B < m + 1 := Nat.div_lt_self (by omega) (by omega)
      rw [digitsB]
      exact digitsBAux_congr B (by omega) (le_refl _)

theorem digitsB_val (B n : Nat) (hB : 2 ≤ B) : valB B (digitsB B n) = n := by
  induction n using Nat.strong_induction_on with
  | _ n ih =>
    rw [digitsB_eq]
    by_cases h : n < B ∨ B ≤ 1
    · rw [if_pos h]
      simp [valB]
    · rw [if_neg h]
      have hn : ¬ n < B := fun hc => h (Or.inl hc)
      have : n / B < n := Nat.div_lt_self (by omega) (by omega)
      rw [valB_append_singleton, ih _ this]
      exact Nat.div_add_mod n B

theorem digitsB_lt (B n : Nat) (hB : 2 ≤ B) : ∀ d ∈ digitsB B n, d < B := by
  induction n using Nat.strong_induction_on with
  | _ n ih =>
    rw [digitsB_eq]
    by_cases h : n < B ∨ B ≤ 1
    · rw [if_pos h]
      intro d hd
      simp only [List.mem_singleton] at hd
      omega
    · rw [if_neg h]
      intro d hd
      rcases List.mem_append.mp hd with h1 | h2
      · exact ih _ (Nat.div_lt_self (by omega) (by omega)) d h1
      · simp only [List.mem_singleton] at h2
        subst h2
        exact Nat.mod_lt _ (by omega)

theorem digitsB_length_le (B n k : Nat) (hB : 2 ≤ B) (hk : 1 ≤ k) (h : n < B ^ k) :
    (digitsB B n).length ≤ k := by
  induction n using Nat.strong_induction_on generalizing k with
  | _ n ih =>
    rw [digitsB_eq]
    by_cases hc : n < B ∨ B ≤ 1
    · rw [if_pos hc, List.length_singleton]
      omega
    · rw [if_neg hc, List.length_append, List.length_singleton]
      have hn : ¬ n < B := fun hx => hc (Or.inl hx)
      have hk2 : 2 ≤ k := by
        by_contra hk2
        have : k = 1 := by omega
        subst this
        simp at h
        omega
      have hdiv : n / B < B ^ (k - 1) := by
        have hpow : B * B ^ (k - 1) = B ^ k := by
          conv_rhs => rw [show k = (k - 1) + 1 by omega]
          rw [pow_succ]
          ring
        have h2 : n < B * B ^ (k - 1) := by rw [hpow]; exact h
        exact Nat.div_lt_of_lt_mul h2
      have := ih (n / B) (Nat.div_lt_self (by omega) (by omega)) (k - 1) (by omega) hdiv
      omega

theorem base_digit_unique {K v w r s : Nat} (hr : r < K) (hs : s < K)
    (h : v * K + r = w * K + s) : v = w ∧ r = s := by
  rcases Nat.lt_trichotomy v w with hlt | heq | hlt
  · exfalso
    have h2 : (v + 1) * K ≤ w * K := Nat.mul_le_mul_right K hlt
    have h3 : (v + 1) * K = v * K + K := by ring
    linarith
  · subst heq
    exact ⟨rfl, by omega⟩
  · exfalso
    have h2 : (w + 1) * K ≤ v * K := Nat.mul_le_mul_right K hlt
    have h3 : (w + 1) * K = w * K + K := by ring
    linarith

theorem valB_cons (B d : Nat) (l : List Nat) :
    valB B (d :: l) = d * B ^ l.length + valB B l := by
  simp only [valB, List.foldl_cons, Nat.mul_zero, Nat.zero_add]
  exact valB_shift B l d

/-! ## Facts about single hex characters (proved by case enumeration) -/

theorem mem_of_contains {l : List Char} {c : Char} (h : l.contains c = true) : c ∈ l := by
  simpa using h

theorem lowerHexDigit_hexDigitVal {c : Char} (h : isLowerHexChar c = true) :
    lowerHexDigit (hexDigitVal c) = c := by
  have hm : c ∈ lowerHexChars := mem_of_contains h
  fin_cases hm <;> decide

theorem hexDigitVal_lowerHexDigit {d : Nat} (h : d < 16) :
    hexDigitVal (lowerHexDigit d) = d := by
  interval_cases d <;> decide

theorem hexDigitVal_lt_of_lower {c : Char} (h : isLowerHexChar c = true) :
    hexDigitVal c < 16 := by
  have hm : c ∈ lowerHexChars := mem_of_contains h
  fin_cases hm <;> decide

theorem hexDigitVal_lt_of_any {c : Char} (h : isHexAnyChar c = true) :
    hexDigitVal c < 16 := by
  rcases Bool.or_eq_true_iff.mp h with h1 | h1
  · exact hexDigitVal_lt_of_lower h1
  · have hm : c ∈ upperHexChars := mem_of_contains h1
    fin_cases hm <;> decide

theorem isLowerHexChar_lowerHexDigit {d : Nat} (h : d < 16) :
    isLowerHexChar (lowerHexDigit d) = true := by
  interval_cases d <;> decide

theorem lowerHexChar_ne_dash {c : Char} (h : isLowerHexChar c = true) :
    (c != '-') = true := by
  have hm : c ∈ lowerHexChars := mem_of_contains h
  fin_cases hm <;> decide

theorem lower_implies_any {c : Char} (h : isLowerHexChar c = true) :
    isHexAnyChar c = true := by
  simp [isHexAnyChar, h]

theorem charToUpper_lowerHexDigit {d : Nat} (h : d < 16) :
    hexDigitVal (charToUpper (lowerHexDigit d)) = d := by
  interval_cases d <;> decide

theorem charToLower_charToUpper_lowerHexDigit {d : Nat} (h : d < 16) :
    charToLower (charToUpper (lowerHexDigit d)) = lowerHexDigit d := by
  interval_cases d <;> decide

/-! ## Hex codec on lists -/

theorem bytesOfHexChars_length (cs : List Char) :
    (bytesOfHexChars cs).length = cs.length / 2 := by
  induction cs using bytesOfHexChars.induct with
  | case1 c1 c2 rest ih =>
    simp only [bytesOfHexChars, List.length_cons, ih]
    omega
  | case2 l h =>
    cases l with
    | nil => simp [bytesOfHexChars]
    | cons a t =>
      cases t with
      | nil => simp [bytesOfHexChars]
      | cons b t2 => exact absurd rfl (by intro hc; exact h a b t2 hc)

theorem bytesOfHexChars_lt {cs : List Char} (h : cs.all isHexAnyChar = true) :
    ∀ b ∈ bytesOfHexChars cs, b < 256 := by
  induction cs using bytesOfHexChars.induct with
  | case1 c1 c2 rest ih =>
    simp only [List.all_cons, Bool.and_eq_true] at h
    intro b hb
    simp only [bytesOfHexChars, List.mem_cons] at hb
    rcases hb with hb | hb
    · have h1 := hexDigitVal_lt_of_any h.1
      have h2 := hexDigitVal_lt_of_any h.2.1
      omega
    · exact ih h.2.2 b hb
  | case2 l hl =>
    cases l with
    | nil => simp [bytesOfHexChars]
    | cons a t =>
      cases t with
      | nil => simp [bytesOfHexChars]
      | cons b t2 => exact absurd rfl (by intro hc; exact hl a b t2 hc)

theorem bytesVal_bytesOfHexChars {cs : List Char} (h : cs.length % 2 = 0) :
    valB 256 (bytesOfHexChars cs) = valB 16 (cs.map hexDigitVal) := by
  induction cs using bytesOfHexChars.induct with
  | case1 c1 c2 rest ih =>
    simp only [List.length_cons] at h
    have hr : rest.length % 2 = 0 := by omega
    have hlen : (bytesOfHexChars rest).length = rest.length / 2 :=
      bytesOfHexChars_length rest
    simp only [bytesOfHexChars, List.map_cons]
    rw [valB_cons, valB_cons, valB_cons, ih hr, hlen, List.length_cons,
      List.length_map]
    have hpow : (256 : Nat) ^ (rest.length / 2) = 16 ^ rest.length := by
      have h2 : rest.length = 2 * (rest.length / 2) := by omega
      calc (256 : Nat) ^ (rest.length / 2) = (16 ^ 2) ^ (rest.length / 2) := by norm_num
        _ = 16 ^ (2 * (rest.length / 2)) := by rw [← pow_mul]
        _ = 16 ^ rest.length := by rw [← h2]
    rw [hpow]
    have hstep : (16 : Nat) ^ (rest.length + 1) = 16 * 16 ^ rest.length := by
      rw [pow_succ]; ring
    rw [hstep]
    ring
  | case2 l hl =>
    cases l with
    | nil => simp [bytesOfHexChars, valB]
    | cons a t =>
      cases t with
      | nil => simp at h
      | cons b t2 => exact absurd rfl (by intro hc; exact hl a b t2 hc)

theorem hexChars_val_inj :
    ∀ cs ds : List Char, cs.all isLowerHexChar = true → ds.all isLowerHexChar = true →
      cs.length = ds.length →
      valB 16 (cs.map hexDigitVal) = valB 16 (ds.map hexDigitVal) → cs = ds := by
  intro cs
  induction cs with
  | nil =>
    intro ds _ _ hlen _
    cases ds with
    | nil => rfl
    | cons d t => simp at hlen
  | cons c ct ih =>
    intro ds hcs hds hlen hval
    cases ds with
    | nil => simp at hlen
    | cons d dt =>
      simp only [List.all_cons, Bool.and_eq_true] at hcs hds
      simp only [List.length_cons] at hlen
      have hlen' : ct.length = dt.length := by omega
      simp only [List.map_cons] at hval
      rw [valB_cons, valB_cons, List.length_map, List.length_map, hlen'] at hval
      have hc16 := hexDigitVal_lt_of_lower hcs.1
      have hd16 := hexDigitVal_lt_of_lower hds.1
      have hrc : valB 16 (ct.map hexDigitVal) < 16 ^ dt.length := by
        rw [← hlen', ← List.length_map ct hexDigitVal]
        exact valB_lt 16 _ (by
          intro x hx
          rcases List.mem_map.mp hx with ⟨e, he, rfl⟩
          exact hexDigitVal_lt_of_lower (by
            have := List.all_eq_true.mp hcs.2 e he
            exact this))
      have hrd : valB 16 (dt.map hexDigitVal) < 16 ^ dt.length := by
        rw [← List.length_map dt hexDigitVal]
        exact valB_lt 16 _ (by
          intro x hx
          rcases List.mem_map.mp hx with ⟨e, he, rfl⟩
          exact hexDigitVal_lt_of_lower (List.all_eq_true.mp hds.2 e he))
      obtain ⟨h1, h2⟩ := base_digit_unique hrc hrd hval
      have hcd : c = d := by
        rw [← lowerHexDigit_hexDigitVal hcs.1, ← lowerHexDigit_hexDigitVal hds.1, h1]
      rw [hcd, ih dt hcs.2 hds.2 hlen' h2]


theorem padLeftList_length {k : Nat} {c : Char} {l : List Char} (h : l.length ≤ k) :
    (padLeftList k c l).length = k := by
  simp [padLeftList]
  omega


theorem natToHexChars_all_lower (n : Nat) :
    (natToHexChars n).all isLowerHexChar = true := by
  simp only [natToHexChars, List.all_eq_true]
  intro c hc
  rcases List.mem_map.mp hc with ⟨d, hd, rfl⟩
  exact isLowerHexChar_lowerHexDigit (digitsB_lt 16 n (by norm_num) d hd)

theorem natToHexChars_val (n : Nat) :
    valB 16 ((natToHexChars n).map hexDigitVal) = n := by
  have : (natToHexChars n).map hexDigitVal = digitsB 16 n := by
    simp only [natToHexChars, List.map_map]
    rw [List.map_congr_left, List.map_id]
    intro d hd
    exact hexDigitVal_lowerHexDigit (digitsB_lt 16 n (by norm_num) d hd)
  rw [this]
  exact digitsB_val 16 n (by norm_num)

theorem padded_hex_val (k n : Nat) :
    valB 16 ((padLeftList k '0' (natToHexChars n)).map hexDigitVal) = n := by
  simp only [padLeftList, List.map_append, List.map_replicate]
  have : hexDigitVal '0' = 0 := by decide
  rw [this, valB_replicate_zero]
  exact natToHexChars_val n

theorem hex_reconstruct {cs : List Char} {k : Nat} (hall : cs.all isLowerHexChar = true)
    (hlen : cs.length = k) (hk : 1 ≤ k) :
    padLeftList k '0' (natToHexChars (valB 16 (cs.map hexDigitVal))) = cs := by
  set n := valB 16 (cs.map hexDigitVal) with hn
  have hlt : n < 16 ^ k := by
    rw [hn, ← hlen, ← List.length_map cs hexDigitVal]
    exact valB_lt 16 _ (by
      intro x hx
      rcases List.mem_map.mp hx with ⟨e, he, rfl⟩
      exact hexDigitVal_lt_of_lower (List.all_eq_true.mp hall e he))
  have hdl : (natToHexChars n).length ≤ k := by
    simp only [natToHexChars, List.length_map]
    exact digitsB_length_le 16 n k (by norm_num) hk hlt
  apply hexChars_val_inj
  · simp only [padLeftList, List.all_append, Bool.and_eq_true, List.all_replicate]
    constructor
    · cases h : (k - (natToHexChars n).length) with
      | zero => simp
      | succ m => simp [List.all_replicate]; decide
    · exact natToHexChars_all_lower n
  · exact hall
  · rw [padLeftList_length hdl, hlen]
  · rw [padded_hex_val, hn]


theorem sAlphaIndexOf_getD : ∀ d : Fin 64, sAlphaChars.indexOf (sAlphaChars.getD d.val 'A') = d.val := by
  decide

theorem sAlphaContains_getD : ∀ d : Fin 64, sAlphaChars.contains (sAlphaChars.getD d.val 'A') = true := by
  decide

theorem cons_of_take_one {l : List Char} {c : Char} (h : l.take 1 = [c]) :
    l = c :: l.drop 1 := by
  cases l with
  | nil => simp at h
  | cons a t =>
    simp only [List.take_succ_cons, List.take_zero, List.cons.injEq] at h
    simp [h.1]

/-- Any string of the lowercase v4 shape splits into its five hex groups. -/
theorem lowerUuidShape_decomp {l : List Char} (h : isLowerUuidShape l = true) :
    ∃ A B C D E : List Char,
      l = A ++ '-' :: (B ++ '-' :: (C ++ '-' :: (D ++ '-' :: E))) ∧
      A.length = 8 ∧ B.length = 4 ∧ C.length = 4 ∧ D.length = 4 ∧ E.length = 12 ∧
      A.all isLowerHexChar = true ∧ B.all isLowerHexChar = true ∧
      C.all isLowerHexChar = true ∧ D.all isLowerHexChar = true ∧
      E.all isLowerHexChar = true := by
  simp only [isLowerUuidShape, Bool.and_eq_true, beq_iff_eq, decide_eq_true_eq] at h
  obtain ⟨⟨⟨⟨⟨⟨⟨⟨⟨h36, hA⟩, d1⟩, hB⟩, d2⟩, hC⟩, d3⟩, hD⟩, d4⟩, hE⟩
    := h
  refine ⟨l.take 8, (l.drop 9).take 4, (l.drop 14).take 4, (l.drop 19).take 4,
    l.drop 24, ?_, ?_, ?_, ?_, ?_, ?_, hA, hB, hC, hD, ?_⟩
  · have e8 : l = l.take 8 ++ l.drop 8 := (List.take_append_drop 8 l).symm
    have e9 : l.drop 8 = '-' :: l.drop 9 := by
      have := cons_of_take_one d1
      rwa [List.drop_drop, show (1 + 8 : Nat) = 9 from rfl] at this
    have e13 : l.drop 9 = (l.drop 9).take 4 ++ l.drop 13 := by
      have := (List.take_append_drop 4 (l.drop 9)).symm
      rwa [List.drop_drop, show (4 + 9 : Nat) = 13 from rfl] at this
    have e14 : l.drop 13 = '-' :: l.drop 14 := by
      have := cons_of_take_one d2
      rwa [List.drop_drop, show (1 + 13 : Nat) = 14 from rfl] at this
    have e18 : l.drop 14 = (l.drop 14).take 4 ++ l.drop 18 := by
      have := (List.take_append_drop 4 (l.drop 14)).symm
      rwa [List.drop_drop, show (4 + 14 : Nat) = 18 from rfl] at this
    have e19 : l.drop 18 = '-' :: l.drop 19 := by
      have := cons_of_take_one d3
      rwa [List.drop_drop, show (1 + 18 : Nat) = 19 from rfl] at this
    have e23 : l.drop 19 = (l.drop 19).take 4 ++ l.drop 23 := by
      have := (List.take_append_drop 4 (l.drop 19)).symm
      rwa [List.drop_drop, show (4 + 19 : Nat) = 23 from rfl] at this
    have e24 : l.drop 23 = '-' :: l.drop 24 := by
      have := cons_of_take_one d4
      rwa [List.drop_drop, show (1 + 23 : Nat) = 24 from rfl] at this
    conv_lhs => rw [e8, e9, e13, e14, e18, e19, e23, e24]
  · rw [List.length_take]; omega
  · rw [List.length_take, List.length_drop]; omega
  · rw [List.length_take, List.length_drop]; omega
  · rw [List.length_take, List.length_drop]; omega
  · rw [List.length_drop]; omega
  · have hlen : (l.drop 24).length ≤ 12 := by rw [List.length_drop]; omega
    rwa [List.take_of_length_le hlen] at hE

theorem lowerUuidShape_regex {l : List Char} (h : isLowerUuidShape l = true) :
    matchesUuidRegex l = true := by
  simp only [isLowerUuidShape, Bool.and_eq_true, beq_iff_eq, decide_eq_true_eq] at h
  obtain ⟨⟨⟨⟨⟨⟨⟨⟨⟨h36, hA⟩, d1⟩, hB⟩, d2⟩, hC⟩, d3⟩, hD⟩, d4⟩, hE⟩ := h
  have mono : ∀ g : List Char, g.all isLowerHexChar = true → g.all isHexAnyChar = true := by
    intro g hg
    rw [List.all_eq_true] at hg ⊢
    exact fun c hc => lower_implies_any (hg c hc)
  simp only [matchesUuidRegex, Bool.and_eq_true, beq_iff_eq, decide_eq_true_eq]
  exact ⟨⟨⟨⟨⟨⟨⟨⟨⟨h36, mono _ hA⟩, d1⟩, mono _ hB⟩, d2⟩, mono _ hC⟩, d3⟩,
    mono _ hD⟩, d4⟩, mono _ hE⟩

theorem all_append_five {A B C D E : List Char} {p : Char → Bool}
    (hA : A.all p = true) (hB : B.all p = true) (hC : C.all p = true)
    (hD : D.all p = true) (hE : E.all p = true) :
    (A ++ B ++ C ++ D ++ E).all p = true := by
  simp [List.all_append, hA, hB, hC, hD, hE]

/-- C7: for every string of the v4-UUID shape (8-4-4-4-12 lowercase hex
groups), `uuid2suuid` succeeds with a 22-character string drawn from the
`sAlpha` alphabet, and `suuid2uuid` maps it back to the original UUID. -/
theorem claim_C7_suuid_roundtrip (u : String) (h : isLowerUuidShape u.data = true) :
    ∃ s : String, uuid2suuid u = some s ∧ s.length = 22 ∧
      s.data.all (fun c => sAlphaChars.contains c) = true ∧
      suuid2uuid s = some u := by
  obtain ⟨A, B, C, D, E, hdec, lA, lB, lC, lD, lE, aA, aB, aC, aD, aE⟩ :=
    lowerUuidShape_decomp h
  -- the dash-less hex characters
  set cs : List Char := A ++ B ++ C ++ D ++ E with hcs
  have hfilter : u.data.filter (fun c => c != '-') = cs := by
    have dashP : (('-' : Char) != '-') = false := by decide
    have fA : A.filter (fun c => c != '-') = A := List.filter_eq_self.mpr
      (fun a ha => lowerHexChar_ne_dash (List.all_eq_true.mp aA a ha))
    have fB : B.filter (fun c => c != '-') = B := List.filter_eq_self.mpr
      (fun a ha => lowerHexChar_ne_dash (List.all_eq_true.mp aB a ha))
    have fC : C.filter (fun c => c != '-') = C := List.filter_eq_self.mpr
      (fun a ha => lowerHexChar_ne_dash (List.all_eq_true.mp aC a ha))
    have fD : D.filter (fun c => c != '-') = D := List.filter_eq_self.mpr
      (fun a ha => lowerHexChar_ne_dash (List.all_eq_true.mp aD a ha))
    have fE : E.filter (fun c => c != '-') = E := List.filter_eq_self.mpr
      (fun a ha => lowerHexChar_ne_dash (List.all_eq_true.mp aE a ha))
    rw [hdec]
    simp only [List.filter_append, List.filter_cons, dashP, hcs]
    rw [fA, fB, fC, fD, fE]
    simp [List.append_assoc]
  have hcs_all : cs.all isLowerHexChar = true := by
    rw [hcs]
    exact all_append_five aA aB aC aD aE
  have hcs_len : cs.length = 32 := by
    rw [hcs]
    simp [lA, lB, lC, lD, lE]
  -- the 128-bit value
  set n : Nat := valB 256 (bytesOfHexChars cs) with hn
  have hn16 : n = valB 16 (cs.map hexDigitVal) := by
    rw [hn]
    exact bytesVal_bytesOfHexChars (by rw [hcs_len])
  have hlt : n < 2 ^ 128 := by
    have hv := valB_lt 16 (cs.map hexDigitVal) (by
      intro x hx
      rcases List.mem_map.mp hx with ⟨e, he, rfl⟩
      exact hexDigitVal_lt_of_lower (List.all_eq_true.mp hcs_all e he))
    rw [List.length_map, hcs_len] at hv
    rw [hn16]
    calc valB 16 (cs.map hexDigitVal) < 16 ^ 32 := hv
      _ = 2 ^ 128 := by norm_num
  -- the base-64 digit string
  set digits : List Nat := digitsB 64 n with hdg
  have hd64 : ∀ d ∈ digits, d < 64 := digitsB_lt 64 n (by norm_num)
  have hdlen : digits.length ≤ 22 :=
    digitsB_length_le 64 n 22 (by norm_num) (by norm_num)
      (lt_of_lt_of_le hlt (by norm_num))
  set mapped : List Char := digits.map (fun d => sAlphaChars.getD d 'A') with hmp
  set sdata : List Char := padLeftList 22 'A' mapped with hsd
  have hsd_len : sdata.length = 22 := by
    rw [hsd]
    exact padLeftList_length (by rw [hmp, List.length_map]; exact hdlen)
  have hsd_alpha : sdata.all (fun c => sAlphaChars.contains c) = true := by
    rw [hsd, padLeftList, List.all_append, Bool.and_eq_true]
    constructor
    · rw [List.all_eq_true]
      intro c hc
      rw [List.eq_of_mem_replicate hc]
      decide
    · rw [hmp, List.all_eq_true]
      intro c hc
      rcases List.mem_map.mp hc with ⟨d, hd, rfl⟩
      exact sAlphaContains_getD ⟨d, hd64 d hd⟩
  have henc : uuid2suuid u = some (String.mk sdata) := by
    rw [uuid2suuid, if_pos (lowerUuidShape_regex h), hfilter]
  refine ⟨String.mk sdata, henc, hsd_len, hsd_alpha, ?_⟩
  -- decoding
  have hne : sdata.isEmpty = false := by
    cases hmt : sdata with
    | nil => rw [hmt] at hsd_len; simp at hsd_len
    | cons a t => rfl
  have hdecval : valB 64 (sdata.map (fun c => sAlphaChars.indexOf c)) = n := by
    rw [hsd, padLeftList, List.map_append, List.map_replicate]
    have hidxA : sAlphaChars.indexOf 'A' = 0 := by decide
    rw [hidxA]
    have hmap : mapped.map (fun c => sAlphaChars.indexOf c) = digits := by
      rw [hmp, List.map_map]
      rw [List.map_congr_left (fun d hd => sAlphaIndexOf_getD ⟨d, hd64 d hd⟩)]
      exact List.map_id digits
    rw [hmap, valB_replicate_zero]
    exact digitsB_val 64 n (by norm_num)
  have hbound : ¬ (340282366920938463463374607431768211455 <
      valB 64 (sdata.map (fun c => sAlphaChars.indexOf c))) := by
    rw [hdecval]
    have : (340282366920938463463374607431768211455 : Nat) = 2 ^ 128 - 1 := by norm_num
    omega
  have hrec : padLeftList 32 '0' (natToHexChars n) = cs := by
    rw [hn16]
    exact hex_reconstruct hcs_all hcs_len (by norm_num)
  have hinsert : uuidFromHex32 cs = u.data := by
    rw [hdec, hcs]
    have h8 : (A ++ B ++ C ++ D ++ E).take 8 = A := by
      rw [show (8 : Nat) = A.length from lA.symm]
      simp [List.append_assoc, List.take_left]
    have hd8 : (A ++ B ++ C ++ D ++ E).drop 8 = B ++ C ++ D ++ E := by
      rw [show (8 : Nat) = A.length from lA.symm]
      simp [List.append_assoc, List.drop_left]
    have h12 : ((A ++ B ++ C ++ D ++ E).drop 8).take 4 = B := by
      rw [hd8, show (4 : Nat) = B.length from lB.symm]
      simp [List.append_assoc, List.take_left]
    have hd12 : (A ++ B ++ C ++ D ++ E).drop 12 = C ++ D ++ E := by
      rw [show (12 : Nat) = 8 + 4 by norm_num, ← List.drop_drop, hd8,
        show (4 : Nat) = B.length from lB.symm]
      simp [List.append_assoc, List.drop_left]
    have h16 : ((A ++ B ++ C ++ D ++ E).drop 12).take 4 = C := by
      rw [hd12, show (4 : Nat) = C.length from lC.symm]
      simp [List.append_assoc, List.take_left]
    have hd16 : (A ++ B ++ C ++ D ++ E).drop 16 = D ++ E := by
      rw [show (16 : Nat) = 12 + 4 by norm_num, ← List.drop_drop, hd12,
        show (4 : Nat) = C.length from lC.symm]
      simp [List.append_assoc, List.drop_left]
    have h20 : ((A ++ B ++ C ++ D ++ E).drop 16).take 4 = D := by
      rw [hd16, show (4 : Nat) = D.length from lD.symm]
      simp [List.take_left]
    have hd20 : (A ++ B ++ C ++ D ++ E).drop 20 = E := by
      rw [show (20 : Nat) = 16 + 4 by norm_num, ← List.drop_drop, hd16,
        show (4 : Nat) = D.length from lD.symm]
      simp [List.drop_left]
    have h32 : ((A ++ B ++ C ++ D ++ E).drop 20).take 12 = E := by
      rw [hd20]
      exact List.take_of_length_le (by omega)
    rw [uuidFromHex32, h8, h12, h16, h20, h32]
  rw [hdecval] at hbound
  rw [suuid2uuid]
  have hguard : ((String.mk sdata).data.isEmpty
      || !((String.mk sdata).data.all (fun c => sAlphaChars.contains c))) = false := by
    show (sdata.isEmpty || !(sdata.all (fun c => sAlphaChars.contains c))) = false
    rw [hne, hsd_alpha]
    rfl
  simp only [hguard, hdecval, hrec, hinsert, if_neg hbound]
  simp

/-! ## Byte/hex helper lemmas for the SUN verifier -/

theorem map_mod256_of_lt {bs : List Nat} (h : ∀ b ∈ bs, b < 256) :
    bs.map (· % 256) = bs := by
  rw [List.map_congr_left (fun b hb => Nat.mod_eq_of_lt (h b hb))]
  exact List.map_id bs

theorem mod256_map_entries (bs : List Nat) : ∀ b ∈ bs.map (· % 256), b < 256 := by
  intro b hb
  rcases List.mem_map.mp hb with ⟨x, _, rfl⟩
  exact Nat.mod_lt _ (by norm_num)

theorem lowerHexOfBytes_length (bs : List Nat) :
    (lowerHexOfBytes bs).length = 2 * bs.length := by
  induction bs with
  | nil => simp [lowerHexOfBytes]
  | cons b t ih =>
    simp only [lowerHexOfBytes, List.map_cons, List.flatten_cons] at ih ⊢
    simp [hexPairOfByte, ih]
    omega

theorem lowerHexOfBytes_chars {bs : List Nat} :
    ∀ ch ∈ lowerHexOfBytes bs, ∃ d, d < 16 ∧ ch = lowerHexDigit d := by
  induction bs with
  | nil => simp [lowerHexOfBytes]
  | cons b t ih =>
    intro ch hch
    simp only [lowerHexOfBytes, List.map_cons, List.flatten_cons, hexPairOfByte,
      List.mem_append, List.mem_cons, List.mem_singleton] at hch
    rcases hch with (h | h | h) | h
    · exact ⟨(b % 256) / 16, by omega, h⟩
    · exact ⟨b % 16, by omega, h⟩
    · exact absurd h (by simp)
    · exact ih ch (by simpa [lowerHexOfBytes] using h)

theorem lowerHexOfBytes_all_lower (bs : List Nat) :
    (lowerHexOfBytes bs).all isLowerHexChar = true := by
  rw [List.all_eq_true]
  intro ch hch
  obtain ⟨d, hd, rfl⟩ := lowerHexOfBytes_chars ch hch
  exact isLowerHexChar_lowerHexDigit hd

theorem isUpperHexChar_charToUpper_lowerHexDigit {d : Nat} (h : d < 16) :
    isUpperHexChar (charToUpper (lowerHexDigit d)) = true := by
  interval_cases d <;> decide

theorem upperHex_all_of_lowerBytes (bs : List Nat) :
    ((lowerHexOfBytes bs).map charToUpper).all isUpperHexChar = true := by
  rw [List.all_eq_true]
  intro ch hch
  rcases List.mem_map.mp hch with ⟨e, he, rfl⟩
  obtain ⟨d, hd, rfl⟩ := lowerHexOfBytes_chars e he
  exact isUpperHexChar_charToUpper_lowerHexDigit hd

theorem strToLower_strToUpper_lowerHex (bs : List Nat) :
    strToLower (strToUpper (String.mk (lowerHexOfBytes bs)))
      = String.mk (lowerHexOfBytes bs) := by
  simp only [strToLower, strToUpper, List.map_map]
  congr 1
  rw [List.map_congr_left, List.map_id]
  intro ch hch
  obtain ⟨d, hd, rfl⟩ := lowerHexOfBytes_chars ch hch
  exact charToLower_charToUpper_lowerHexDigit hd

theorem bytesOfHex_upper_lowerHex (bs : List Nat) :
    bytesOfHexChars ((lowerHexOfBytes bs).map charToUpper) = bs.map (· % 256) := by
  induction bs with
  | nil => simp [lowerHexOfBytes, bytesOfHexChars]
  | cons b t ih =>
    simp only [lowerHexOfBytes, List.map_cons, List.flatten_cons, hexPairOfByte,
      List.cons_append, List.nil_append, List.map_append, List.map_cons,
      bytesOfHexChars]
    have hd : (16 * hexDigitVal (charToUpper (lowerHexDigit (b % 256 / 16))) +
        hexDigitVal (charToUpper (lowerHexDigit (b % 16)))) = b % 256 := by
      have h1 : (b % 256) / 16 < 16 := by omega
      have h2 : b % 16 < 16 := by omega
      rw [charToUpper_lowerHexDigit h1, charToUpper_lowerHexDigit h2]
      have : b % 256 % 16 = b % 16 := Nat.mod_mod_of_dvd b (by norm_num)
      omega
    have ih' := ih
    simp only [lowerHexOfBytes] at ih'
    rw [hd]
    simpa using ih'

theorem lowerHexOfBytes_bytesOfHexChars {cs : List Char}
    (hall : cs.all isLowerHexChar = true) (heven : cs.length % 2 = 0) :
    lowerHexOfBytes (bytesOfHexChars cs) = cs := by
  induction cs using bytesOfHexChars.induct with
  | case1 c1 c2 rest ih =>
    simp only [List.all_cons, Bool.and_eq_true] at hall
    obtain ⟨h1, h2, h3⟩ := hall
    simp only [List.length_cons] at heven
    have hv1 := hexDigitVal_lt_of_lower h1
    have hv2 := hexDigitVal_lt_of_lower h2
    simp only [bytesOfHexChars, lowerHexOfBytes, List.map_cons, List.flatten_cons,
      hexPairOfByte]
    rw [show lowerHexOfBytes (bytesOfHexChars rest) = ((bytesOfHexChars rest).map hexPairOfByte).flatten
      from rfl] at ih
    rw [ih h3 (by omega)]
    have hb : 16 * hexDigitVal c1 + hexDigitVal c2 < 256 := by omega
    rw [Nat.mod_eq_of_lt hb]
    have hdiv : (16 * hexDigitVal c1 + hexDigitVal c2) / 16 = hexDigitVal c1 := by omega
    have hmod : (16 * hexDigitVal c1 + hexDigitVal c2) % 16 = hexDigitVal c2 := by omega
    rw [hdiv, hmod, lowerHexDigit_hexDigitVal h1, lowerHexDigit_hexDigitVal h2]
    rfl
  | case2 l hl =>
    cases l with
    | nil => simp [bytesOfHexChars, lowerHexOfBytes]
    | cons a t =>
      cases t with
      | nil => simp at heven
      | cons b t2 => exact absurd rfl (by intro hc; exact hl a b t2 hc)

theorem ctrBytesBE_spec {ctr : Nat} (h : ctr ≤ 0xffffff) :
    (ctrBytesBE ctr).length = 3 ∧ (∀ b ∈ ctrBytesBE ctr, b < 256) ∧
    (ctrBytesBE ctr).getD 0 0 * 65536 + (ctrBytesBE ctr).getD 1 0 * 256 +
      (ctrBytesBE ctr).getD 2 0 = ctr := by
  have hlt : ctr < 16 ^ 6 := by norm_num at h ⊢; omega
  have hdl : (natToHexChars ctr).length ≤ 6 := by
    simp only [natToHexChars, List.length_map]
    exact digitsB_length_le 16 ctr 6 (by norm_num) (by norm_num) hlt
  set cs : List Char := padLeftList 6 '0' (natToHexChars ctr) with hcs
  have hlen : cs.length = 6 := padLeftList_length hdl
  have hall : cs.all isLowerHexChar = true := by
    rw [hcs, padLeftList, List.all_append, Bool.and_eq_true]
    refine ⟨?_, natToHexChars_all_lower ctr⟩
    rw [List.all_eq_true]
    intro ch hch
    rw [List.eq_of_mem_replicate hch]
    decide
  have hval : valB 256 (bytesOfHexChars cs) = ctr := by
    rw [bytesVal_bytesOfHexChars (by omega), hcs, padded_hex_val]
  have hblen : (bytesOfHexChars cs).length = 3 := by
    rw [bytesOfHexChars_length, hlen]
  have hblt : ∀ b ∈ bytesOfHexChars cs, b < 256 :=
    bytesOfHexChars_lt (by
      rw [List.all_eq_true] at hall ⊢
      exact fun ch hch => lower_implies_any (hall ch hch))
  obtain ⟨b0, b1, b2, hb⟩ := List.length_eq_three.mp hblen
  refine ⟨by rw [ctrBytesBE, ← hcs, hblen], by rw [ctrBytesBE, ← hcs]; exact hblt, ?_⟩
  rw [ctrBytesBE, ← hcs, hb]
  rw [hb] at hval
  have g0 : ([b0, b1, b2] : List Nat).getD 0 0 = b0 := rfl
  have g1 : ([b0, b1, b2] : List Nat).getD 1 0 = b1 := rfl
  have g2 : ([b0, b1, b2] : List Nat).getD 2 0 = b2 := rfl
  rw [g0, g1, g2]
  simp only [valB, List.foldl_cons, List.foldl_nil] at hval
  omega

theorem findNtag424_updateNtagCtr (db : DB) (k1Hex cid : String) (v : Nat) :
    findNtag424 (updateNtagCtr db k1Hex cid v) k1Hex cid
      = (findNtag424 db k1Hex cid).map (fun m => { m with ctr := v }) := by
  simp only [findNtag424, updateNtagCtr]
  induction db.ntag424s with
  | nil => simp
  | cons m t ih =>
    by_cases hm : (m.cid == cid && m.k1 == k1Hex) = true
    · simp only [List.map_cons, hm, if_true]
      rw [List.find?_cons_of_pos _ (by simpa using hm),
        List.find?_cons_of_pos _ (by exact hm)]
      rfl
    · simp only [List.map_cons, hm, if_false]
      rw [List.find?_cons_of_neg _ (by simpa using hm),
        List.find?_cons_of_neg _ (by exact hm)]
      exact ih

theorem retrieveNtag424FromPC_ok_inversion {env : CryptoEnv} {k1Hex : String}
    {db : DB} {p c : String} {ntag : Ntag424} {db' : DB}
    (hok : retrieveNtag424FromPC env k1Hex db (some p) (some c) = .ok (ntag, db')) :
    pShape p = true ∧ cShape c = true ∧
    (decryptedP env k1Hex p).getD 0 0 = 0xc7 ∧
    findNtag424 db k1Hex (cidOfP env k1Hex p) = some ntag ∧
    ntag.ctr < ctrNewOfP env k1Hex p ∧
    strToLower c = sdmmac env ntag.k2 (cidBytesOfP env k1Hex p) (ctrBytesOfP env k1Hex p) ∧
    db' = updateNtagCtr db k1Hex (cidOfP env k1Hex p) (ctrNewOfP env k1Hex p) := by
  simp only [retrieveNtag424FromPC] at hok
  by_cases h1 : pShape p = true
  · rw [if_pos h1] at hok
    by_cases h2 : cShape c = true
    · rw [if_pos h2] at hok
      by_cases h3 : (decryptedP env k1Hex p).getD 0 0 = 0xc7
      · rw [if_pos h3] at hok
        cases hfind : findNtag424 db k1Hex (cidOfP env k1Hex p) with
        | none => rw [hfind] at hok; simp at hok
        | some n0 =>
          rw [hfind] at hok
          replace hok :
              (if ctrNewOfP env k1Hex p ≤ n0.ctr then
                 (Except.error Ntag424Error.malformedP_counterTooOld :
                   Except Ntag424Error (Ntag424 × DB))
               else if strToLower c
                   = sdmmac env n0.k2 (cidBytesOfP env k1Hex p) (ctrBytesOfP env k1Hex p) then
                 Except.ok (n0, updateNtagCtr db k1Hex (cidOfP env k1Hex p)
                   (ctrNewOfP env k1Hex p))
               else Except.error Ntag424Error.malformedC_sdmmacMismatch)
              = Except.ok (ntag, db') := hok
          by_cases h4 : ctrNewOfP env k1Hex p ≤ n0.ctr
          · rw [if_pos h4] at hok; simp at hok
          · rw [if_neg h4] at hok
            by_cases h5 : strToLower c
                = sdmmac env n0.k2 (cidBytesOfP env k1Hex p) (ctrBytesOfP env k1Hex p)
            · rw [if_pos h5] at hok
              simp only [Except.ok.injEq, Prod.mk.injEq] at hok
              obtain ⟨hn, hdb⟩ := hok
              subst hn
              exact ⟨h1, h2, h3, rfl, by omega, h5, hdb.symm⟩
            · rw [if_neg h5] at hok; simp at hok
      · rw [if_neg h3] at hok; simp at hok
    · rw [if_neg h2] at hok; simp at hok
  · rw [if_neg h1] at hok; simp at hok

/-- C1: counter monotonicity of the SUN verifier.  (i) With a decrypted
counter at most the stored one, verification fails with the counter-too-old
error; (ii) on success the stored counter becomes the decrypted one, which
is strictly greater; (iii) hence after a successful verification at counter
`c2`, any verification of the same NTAG carrying `c1 < c2` fails. -/
theorem claim_C1_counter_monotonicity (env : CryptoEnv) (k1Hex : String)
    (db : DB) (p c : String) :
    (∀ ntag : Ntag424, pShape p = true → cShape c = true →
      (decryptedP env k1Hex p).getD 0 0 = 0xc7 →
      findNtag424 db k1Hex (cidOfP env k1Hex p) = some ntag →
      ctrNewOfP env k1Hex p ≤ ntag.ctr →
      retrieveNtag424FromPC env k1Hex db (some p) (some c)
        = .error .malformedP_counterTooOld) ∧
    (∀ (ntag : Ntag424) (db' : DB),
      retrieveNtag424FromPC env k1Hex db (some p) (some c) = .ok (ntag, db') →
      ntag.ctr < ctrNewOfP env k1Hex p ∧
      findNtag424 db' k1Hex (cidOfP env k1Hex p)
        = some { ntag with ctr := ctrNewOfP env k1Hex p }) ∧
    (∀ (ntag : Ntag424) (db' : DB) (p1 c1 : String) (r : Ntag424 × DB),
      retrieveNtag424FromPC env k1Hex db (some p) (some c) = .ok (ntag, db') →
      cidOfP env k1Hex p1 = cidOfP env k1Hex p →
      ctrNewOfP env k1Hex p1 < ctrNewOfP env k1Hex p →
      retrieveNtag424FromPC env k1Hex db' (some p1) (some c1) ≠ .ok r) := by
  refine ⟨?_, ?_, ?_⟩
  · intro ntag h1 h2 h3 hfind hle
    simp only [retrieveNtag424FromPC, if_pos h1, if_pos h2, if_pos h3, hfind,
      if_pos hle]
  · intro ntag db' hok
    obtain ⟨_, _, _, hfind, hlt, _, hdb⟩ := retrieveNtag424FromPC_ok_inversion hok
    refine ⟨hlt, ?_⟩
    rw [hdb, findNtag424_updateNtagCtr, hfind]
    rfl
  · intro ntag db' p1 c1 r hok hcid hlt hok2
    obtain ⟨n2, db2⟩ := r
    obtain ⟨_, _, _, hfind, _, _, hdb⟩ := retrieveNtag424FromPC_ok_inversion hok
    obtain ⟨_, _, _, hfind2, hlt2, _, _⟩ := retrieveNtag424FromPC_ok_inversion hok2
    rw [hcid, hdb, findNtag424_updateNtagCtr, hfind] at hfind2
    simp at hfind2
    rw [← hfind2] at hlt2
    have hx : ctrNewOfP env k1Hex p < ctrNewOfP env k1Hex p1 := hlt2
    omega

/-- Witness for C1: at a stored counter 9, a tap decrypting to counter 5 is
rejected as counter-too-old; and after a successful verification at counter
11, a replay decrypting to counter 5 cannot succeed. -/
theorem claim_C1_witness :
    retrieveNtag424FromPC idCryptoEnv k1W (dbOfNtag ntagW)
      (some "C7010203040506070500000000000000") (some "AAAAAAAAAAAAAAAA")
      = .error .malformedP_counterTooOld ∧
    retrieveNtag424FromPC idCryptoEnv k1W (dbOfNtag { ntagW with ctr := 11 })
      (some "C7010203040506070500000000000000") (some "AAAAAAAAAAAAAAAA")
      ≠ .ok (ntagW, dbOfNtag ntagW) := by
  constructor
  · exact (claim_C1_counter_monotonicity idCryptoEnv k1W (dbOfNtag ntagW)
      "C7010203040506070500000000000000" "AAAAAAAAAAAAAAAA").1 ntagW
      (by decide) (by decide) (by decide) (by decide) (by decide)
  · exact (claim_C1_counter_monotonicity idCryptoEnv k1W (dbOfNtag ntagW)
      "C7010203040506070B00000000000000" "0000000000000000").2.2 ntagW
      (dbOfNtag { ntagW with ctr := 11 }) "C7010203040506070500000000000000"
      "AAAAAAAAAAAAAAAA" (ntagW, dbOfNtag ntagW)
      (by rfl) (by decide) (by decide)

theorem getD_lt_of_all {l : List Nat} (h : ∀ b ∈ l, b < 256) (i : Nat) :
    l.getD i 0 < 256 := by
  by_cases hi : i < l.length
  · have hx : l.getD i 0 ∈ l := by
      rw [List.getD_eq_getElem _ _ hi]
      exact List.getElem_mem hi
    exact h _ hx
  · rw [List.getD_eq_default _ _ (by omega)]
    norm_num

/-- C2: `generatePC(k2, cid, ctr, pad)` produces parameters that the
verifier decodes back to the same card id and counter — the 3-byte
big-endian write reversed on the wire and the little-endian read are
inverses — with a matching SDMMAC; consequently verification of `(p, c)`
succeeds against a stored NTAG row for `cid` with the same `k2` and a
smaller stored counter, updating it to `ctr`.  The two AES hypotheses state
that the abstract block cipher is length-preserving and invertible on this
16-byte block (true of AES-128-CBC with zero IV and no padding). -/
theorem claim_C2_generatePC_roundtrip
    (env : CryptoEnv) (k1Hex k2 cid pad : String) (ctr : Nat) (p c : String)
    (hcid_len : cid.length = 14) (hcid_hex : cid.data.all isLowerHexChar = true)
    (hctr : ctr ≤ 0xffffff)
    (hgen : generatePC env k1Hex k2 cid ctr pad = some (p, c))
    (hct_len : ((env.aesEncrypt (bytesOfHexS k1Hex) (piccPlaintext cid ctr pad)).map
        (· % 256)).length = 16)
    (hdec : env.aesDecrypt (bytesOfHexS k1Hex)
        ((env.aesEncrypt (bytesOfHexS k1Hex) (piccPlaintext cid ctr pad)).map (· % 256))
      = piccPlaintext cid ctr pad) :
    pShape p = true ∧ cShape c = true ∧
    (decryptedP env k1Hex p).getD 0 0 = 0xc7 ∧
    cidOfP env k1Hex p = cid ∧
    ctrNewOfP env k1Hex p = ctr ∧
    strToLower c = sdmmac env k2 (cidBytesOfP env k1Hex p) (ctrBytesOfP env k1Hex p) ∧
    (∀ ntag : Ntag424, ntag.cid = cid → ntag.k1 = k1Hex → ntag.k2 = k2 →
      ntag.ctr < ctr →
      retrieveNtag424FromPC env k1Hex (dbOfNtag ntag) (some p) (some c)
        = .ok (ntag, dbOfNtag { ntag with ctr := ctr })) := by
  -- invert the generator
  rw [generatePC] at hgen
  by_cases g1 : (decide (k2.length = 32) && k2.data.all isHexAnyChar) = true
  case neg => rw [if_neg g1] at hgen; simp at hgen
  rw [if_pos g1] at hgen
  by_cases g2 : (decide (cid.length = 14) && cid.data.all isHexAnyChar) = true
  case neg => rw [if_neg g2] at hgen; simp at hgen
  rw [if_pos g2] at hgen
  by_cases g3 : ctr ≤ 0xffffff
  case neg => rw [if_neg g3] at hgen; simp at hgen
  rw [if_pos g3] at hgen
  by_cases g4 : (decide (pad.length = 10) && pad.data.all isHexAnyChar) = true
  case neg => rw [if_neg g4] at hgen; simp at hgen
  rw [if_pos g4] at hgen
  · simp only [Option.some.injEq, Prod.mk.injEq] at hgen
    obtain ⟨hp, hc⟩ := hgen
    -- byte-level facts
    simp only [Bool.and_eq_true, decide_eq_true_eq] at g4
    obtain ⟨hpad_len, hpad_hex⟩ := g4
    obtain ⟨hcb_len, hcb_lt, hcb_val⟩ := ctrBytesBE_spec hctr
    have hcid_any : cid.data.all isHexAnyChar = true := by
      rw [List.all_eq_true] at hcid_hex ⊢
      exact fun x hx => lower_implies_any (hcid_hex x hx)
    have hbcid_len : (bytesOfHexS cid).length = 7 := by
      rw [bytesOfHexS, bytesOfHexChars_length]
      have : cid.data.length = 14 := hcid_len
      omega
    have hbcid_lt : ∀ b ∈ bytesOfHexS cid, b < 256 := bytesOfHexChars_lt hcid_any
    have hbpad_lt : ∀ b ∈ bytesOfHexS pad, b < 256 := bytesOfHexChars_lt hpad_hex
    have hpicc_lt : ∀ b ∈ piccPlaintext cid ctr pad, b < 256 := by
      intro b hb
      simp only [piccPlaintext, piccCidCtr, List.mem_cons, List.mem_append,
        List.mem_cons, List.mem_singleton] at hb
      rcases hb with rfl | (hb | (rfl | rfl | rfl | hfalse)) | hb
      · norm_num
      · exact hbcid_lt b hb
      · exact getD_lt_of_all hcb_lt 2
      · exact getD_lt_of_all hcb_lt 1
      · exact getD_lt_of_all hcb_lt 0
      · exact absurd hfalse (by simp)
      · exact hbpad_lt b hb
    set ct : List Nat :=
      (env.aesEncrypt (bytesOfHexS k1Hex) (piccPlaintext cid ctr pad)).map (· % 256)
      with hct
    -- the produced p parses back to the ciphertext
    have hp_bytes : bytesOfHexS p = ct := by
      rw [← hp]
      show bytesOfHexChars ((lowerHexOfBytes ct).map charToUpper) = ct
      rw [bytesOfHex_upper_lowerHex]
      exact map_mod256_of_lt (mod256_map_entries _)
    have hdecp : decryptedP env k1Hex p = piccPlaintext cid ctr pad := by
      rw [decryptedP, hp_bytes, hdec]
      exact map_mod256_of_lt hpicc_lt
    -- decomposition of the plaintext
    have hplain : piccPlaintext cid ctr pad
        = 0xc7 :: (bytesOfHexS cid ++
            ([(ctrBytesBE ctr).getD 2 0, (ctrBytesBE ctr).getD 1 0,
              (ctrBytesBE ctr).getD 0 0] ++ bytesOfHexS pad)) := by
      simp [piccPlaintext, piccCidCtr, List.append_assoc]
    have hps : pShape p = true := by
      rw [← hp, pShape]
      have hlen : (strToUpper (String.mk (lowerHexOfBytes ct))).length = 32 := by
        show ((lowerHexOfBytes ct).map charToUpper).length = 32
        rw [List.length_map, lowerHexOfBytes_length, hct_len]
      rw [hlen]
      rw [show decide ((32 : Nat) = 32) = true from by decide, Bool.true_and]
      exact upperHex_all_of_lowerBytes ct
    have hcs : cShape c = true := by
      rw [← hc, cShape]
      have hlen : (strToUpper (String.mk (lowerHexOfBytes (oddIndexBytes
          (env.aesCmac (env.aesCmac (bytesOfHexS k2)
            (sv2Header ++ piccCidCtr cid ctr)) []))))).length = 16 := by
        show ((lowerHexOfBytes _).map charToUpper).length = 16
        rw [List.length_map, lowerHexOfBytes_length]
        rfl
      rw [hlen]
      rw [show decide ((16 : Nat) = 16) = true from by decide, Bool.true_and]
      exact upperHex_all_of_lowerBytes _
    have hpre : (decryptedP env k1Hex p).getD 0 0 = 0xc7 := by
      rw [hdecp, hplain]
      rfl
    have hcidB : cidBytesOfP env k1Hex p = bytesOfHexS cid := by
      rw [cidBytesOfP, hdecp, hplain]
      rw [List.drop_succ_cons, List.drop_zero]
      rw [show (7 : Nat) = (bytesOfHexS cid).length from hbcid_len.symm]
      exact List.take_left _ _
    have hctrB : ctrBytesOfP env k1Hex p
        = [(ctrBytesBE ctr).getD 2 0, (ctrBytesBE ctr).getD 1 0,
           (ctrBytesBE ctr).getD 0 0] := by
      rw [ctrBytesOfP, hdecp, hplain]
      rw [show (8 : Nat) = 7 + 1 by norm_num, List.drop_succ_cons]
      rw [show (7 : Nat) = (bytesOfHexS cid).length from hbcid_len.symm,
        List.drop_left]
      rfl
    have hcid_eq : cidOfP env k1Hex p = cid := by
      rw [cidOfP, hcidB, bytesOfHexS,
        lowerHexOfBytes_bytesOfHexChars hcid_hex (by
          have : cid.data.length = 14 := hcid_len
          omega)]
    have hctr_eq : ctrNewOfP env k1Hex p = ctr := by
      rw [ctrNewOfP, hctrB]
      have e0 : ([(ctrBytesBE ctr).getD 2 0, (ctrBytesBE ctr).getD 1 0,
          (ctrBytesBE ctr).getD 0 0] : List Nat).getD 0 0
        = (ctrBytesBE ctr).getD 2 0 := rfl
      have e1 : ([(ctrBytesBE ctr).getD 2 0, (ctrBytesBE ctr).getD 1 0,
          (ctrBytesBE ctr).getD 0 0] : List Nat).getD 1 0
        = (ctrBytesBE ctr).getD 1 0 := rfl
      have e2 : ([(ctrBytesBE ctr).getD 2 0, (ctrBytesBE ctr).getD 1 0,
          (ctrBytesBE ctr).getD 0 0] : List Nat).getD 2 0
        = (ctrBytesBE ctr).getD 0 0 := rfl
      rw [e0, e1, e2]
      omega
    have hmac : strToLower c
        = sdmmac env k2 (cidBytesOfP env k1Hex p) (ctrBytesOfP env k1Hex p) := by
      rw [← hc, strToLower_strToUpper_lowerHex, sdmmac, hcidB, hctrB]
      have : sv2Header ++ bytesOfHexS cid ++
          [(ctrBytesBE ctr).getD 2 0, (ctrBytesBE ctr).getD 1 0,
           (ctrBytesBE ctr).getD 0 0]
        = sv2Header ++ piccCidCtr cid ctr := by
        simp [piccCidCtr, List.append_assoc]
      rw [this]
    refine ⟨hps, hcs, hpre, hcid_eq, hctr_eq, hmac, ?_⟩
    intro ntag hncid hnk1 hnk2 hnctr
    have hfind : findNtag424 (dbOfNtag ntag) k1Hex (cidOfP env k1Hex p)
        = some ntag := by
      rw [hcid_eq, findNtag424, dbOfNtag]
      simp only
      rw [List.find?_cons_of_pos]
      simp [hncid, hnk1]
    rw [retrieveNtag424FromPC, if_pos hps, if_pos hcs, if_pos hpre, hfind]
    show (if ctrNewOfP env k1Hex p ≤ ntag.ctr then
        (Except.error Ntag424Error.malformedP_counterTooOld :
          Except Ntag424Error (Ntag424 × DB))
      else if strToLower c
          = sdmmac env ntag.k2 (cidBytesOfP env k1Hex p) (ctrBytesOfP env k1Hex p) then
        Except.ok (ntag, updateNtagCtr (dbOfNtag ntag) k1Hex (cidOfP env k1Hex p)
          (ctrNewOfP env k1Hex p))
      else Except.error Ntag424Error.malformedC_sdmmacMismatch)
      = Except.ok (ntag, dbOfNtag { ntag with ctr := ctr })
    rw [if_neg (by rw [hctr_eq]; omega)]
    rw [if_pos (by rw [hmac, hnk2])]
    have hupd : updateNtagCtr (dbOfNtag ntag) k1Hex (cidOfP env k1Hex p)
        (ctrNewOfP env k1Hex p) = dbOfNtag { ntag with ctr := ctr } := by
      rw [hcid_eq, hctr_eq, updateNtagCtr, dbOfNtag, dbOfNtag]
      simp [hncid, hnk1]
    rw [hupd]

/-- Witness for C2: the round-trip theorem applied to a concrete key, card
id `f0da0000000010`, counter 5 and zero pad, against a stored row with
counter 3. -/
theorem claim_C2_witness :
    generatePC idCryptoEnv k1W k1W cidW 5 "0000000000"
      = some ("C7F0DA00000000100500000000000000", "0000000000000000") ∧
    retrieveNtag424FromPC idCryptoEnv k1W (dbOfNtag ntagW2)
      (some "C7F0DA00000000100500000000000000") (some "0000000000000000")
      = .ok (ntagW2, dbOfNtag { ntagW2 with ctr := 5 }) := by
  constructor
  · decide
  · exact (claim_C2_generatePC_roundtrip idCryptoEnv k1W k1W cidW "0000000000" 5
      "C7F0DA00000000100500000000000000" "0000000000000000"
      (by decide) (by decide) (by decide) (by decide) (by decide)
      (by decide)).2.2.2.2.2.2 ntagW2 rfl rfl rfl (by decide)

/-- Witness for C7: the round-trip theorem applied to a concrete UUID. -/
theorem claim_C7_witness :
    isLowerUuidShape ("00112233-4455-6677-8899-aabbccddeeff" : String).data = true ∧
    ∃ s : String, uuid2suuid "00112233-4455-6677-8899-aabbccddeeff" = some s ∧
      s.length = 22 ∧ s.data.all (fun c => sAlphaChars.contains c) = true ∧
      suuid2uuid s = some "00112233-4455-6677-8899-aabbccddeeff" :=
  ⟨by decide, claim_C7_suuid_roundtrip "00112233-4455-6677-8899-aabbccddeeff" (by decide)⟩

/-! ## C6: re-association of the same one-time code -/

/-- C6: the claim states that re-PATCHing the NTAG's own otc is idempotent
(204, NTAG unchanged) and that the cid-conflict 409 arises only when the
otc is bound to a *different* NTAG.  The code diverges: `findFirst({ where:
{ otc } })` does not exclude the verified NTAG itself, so on a store whose
only NTAG already carries `weirdcode`, re-PATCHing `weirdcode` on that very
NTAG answers the cid-conflict 409 with `old_ntag_cid = new_ntag_cid`
instead of 204 — while a first association of a fresh otc does answer 204
and a different otc does answer the otc-conflict 409, confirming the
surrounding branches. -/
theorem claim_C6_same_otc_repatch_conflicts :
    ntagW3.otc = some "weirdcode" ∧
    ntag424PatchHandler (dbOfNtag ntagW3) (some ntagW3) "weirdcode"
      = (.conflictCid ntagW3.cid ntagW3.cid, dbOfNtag ntagW3) ∧
    (PatchOutcome.conflictCid ntagW3.cid ntagW3.cid ≠ .noContent) ∧
    ntag424PatchHandler (dbOfNtag ntagW) (some ntagW) "weirdcode"
      = (.noContent, dbOfNtag ntagW3) ∧
    ntag424PatchHandler (dbOfNtag ntagW3) (some ntagW3) "othercode"
      = (.conflictOtc (some "weirdcode") "othercode", dbOfNtag ntagW3) := by
  refine ⟨rfl, by decide, by decide, by decide, by decide⟩

/-! ## C8: delegation-condition validation -/

/-- C8: the claim states that `validateDelegationConditions` accepts
exactly the strings with exactly one `kind=N`, one `created_at>S` and one
`created_at<U` condition (`S < U`), rejecting in particular every string
with a duplicated condition.  The code diverges: its module-level regexes
carry the `g` flag, so a successful match leaves `lastIndex` at the end of
the part and the *next* loop iteration's `exec` fails to match, silently
skipping an adjacent duplicate.  A well-formed string is accepted (first
conjunct), but so is one with `kind=1` duplicated in adjacent parts
(second conjunct, refuting the claim); only a duplicate separated by a
further part is rejected (third conjunct, the sticky `lastIndex` having
reset in between). -/
theorem claim_C8_duplicate_condition_accepted :
    validateDelegationConditions "kind=1&created_at>2&created_at<3"
      = some { kind := 1, since := 2, until_ := 3 } ∧
    validateDelegationConditions "kind=1&kind=1&created_at>2&created_at<3"
      = some { kind := 1, since := 2, until_ := 3 } ∧
    validateDelegationConditions "kind=1&created_at>2&kind=1&created_at<3"
      = none := by
  refine ⟨by decide, by decide, by decide⟩

/-! ## C9: the card-data event -/

/-- C9: the claim states that `buildCardDataEvent` produces kind 31111 with
the `["t","card-data"]` and `["d","<holder>:card-data"]` tags (confirmed by
the first two conjuncts) and that the encrypted content's plaintext is the
JSON serialization of the holder's card-uuid-to-design map.  The code
diverges on the content: `buildCardDataPayload` is `async` and its result
is not awaited, so `JSON.stringify` receives a pending `Promise` — an
object with no own enumerable properties — and the plaintext is the
constant string of an opening and a closing brace, not the documented
serialization, even for a holder whose (nonempty) payload maps card `c1`
to its design. -/
theorem claim_C9_card_data_content_is_empty_object :
    (buildCardDataEvent "skey" "spub" db9 "holder").kind = 31111 ∧
    (buildCardDataEvent "skey" "spub" db9 "holder").tags
      = [["t", "card-data"], ["d", "holder:card-data"]] ∧
    buildCardDataPayload db9 "holder" = [("c1", designW)] ∧
    (buildCardDataEvent "skey" "spub" db9 "holder").plaintextContent
      = jsonStringifyOfPromise ∧
    (buildCardDataEvent "skey" "spub" db9 "holder").plaintextContent
      ≠ cardDataPayloadJson (buildCardDataPayload db9 "holder") := by
  refine ⟨rfl, by decide, by decide, rfl, by decide⟩

/-! ## C3: single use of payment requests -/

theorem find?_key_unique {α : Type} (f : α → String) {l : List α} {x : α}
    (hnd : (l.map f).Nodup) (hx : x ∈ l) :
    l.find? (fun r => f r == f x) = some x := by
  induction l with
  | nil => cases hx
  | cons a t ih =>
    by_cases hfa : f a = f x
    · have hax : a = x := by
        rcases List.mem_cons.mp hx with h | h
        · exact h.symm
        · exfalso
          have : f x ∈ t.map f := List.mem_map_of_mem f h
          rw [← hfa] at this
          exact (List.nodup_cons.mp hnd).1 this
      rw [List.find?_cons_of_pos _ (by simp [hfa]), hax]
    · have hxt : x ∈ t := by
        rcases List.mem_cons.mp hx with h | h
        · exact absurd (congrArg f h.symm) hfa
        · exact h
      rw [List.find?_cons_of_neg _ (by simp [hfa])]
      exact ih (List.nodup_cons.mp hnd).2 hxt

/-- C3: a payment request is served by `getExtantPaymentRequestByUuid` if
and only if it is stored under the requested uuid, its age is within the
expiry window, no payment row references it, and its card exists (the
lookup includes the card); and after `addPaymentsForPaymentRequest` has
inserted at least one payment referencing it, every later lookup of the
same uuid fails — the second pay attempt with the same `k1` is rejected.
The uuid-Nodup hypothesis is the primary-key constraint of the
`payment_requests` table. -/
theorem claim_C3_payment_request_single_use (expirySeconds nowMs createdAt : Int)
    (db : DB) (pr : PaymentRequest) (card : Card)
    (tokens : List (String × Int))
    (hnd : (db.paymentRequests.map PaymentRequest.uuid).Nodup)
    (htk : tokens ≠ []) :
    (getExtantPaymentRequestByUuid expirySeconds nowMs db pr.uuid = some (pr, card) ↔
      pr ∈ db.paymentRequests ∧
      nowMs - pr.createdAt < expirySeconds * 1000 ∧
      (∀ pm ∈ db.payments, pm.paymentRequestUuid ≠ pr.uuid) ∧
      db.cards.find? (fun cd => cd.uuid == pr.cardUuid) = some card) ∧
    (pr ∈ db.paymentRequests →
      getExtantPaymentRequestByUuid expirySeconds nowMs
        (addPaymentsForPaymentRequest db pr tokens createdAt) pr.uuid = none) := by
  constructor
  · constructor
    · intro h
      unfold getExtantPaymentRequestByUuid at h
      cases hfind : db.paymentRequests.find? (fun r => r.uuid == pr.uuid) with
      | none => rw [hfind] at h; cases h
      | some pr0 =>
        rw [hfind] at h
        replace h : (if (decide (nowMs - expirySeconds * 1000 < pr0.createdAt)
            && !(db.payments.any (fun pm => pm.paymentRequestUuid == pr0.uuid))) = true
          then (db.cards.find? (fun cd => cd.uuid == pr0.cardUuid)).map (fun cd => (pr0, cd))
          else none) = some (pr, card) := h
        by_cases hc : (decide (nowMs - expirySeconds * 1000 < pr0.createdAt)
            && !(db.payments.any (fun pm => pm.paymentRequestUuid == pr0.uuid))) = true
        · rw [if_pos hc] at h
          obtain ⟨cd, hcd, hpair⟩ := Option.map_eq_some'.mp h
          rw [Prod.mk.injEq] at hpair
          obtain ⟨hpr0, hcard⟩ := hpair
          subst hpr0
          subst hcard
          rw [Bool.and_eq_true] at hc
          obtain ⟨htime, hnopay⟩ := hc
          refine ⟨List.mem_of_find?_eq_some hfind, ?_, ?_, hcd⟩
          · have := of_decide_eq_true htime
            omega
          · intro pm hpm heq
            have : db.payments.any (fun pm => pm.paymentRequestUuid == pr0.uuid) = true :=
              List.any_eq_true.mpr ⟨pm, hpm, by simp [heq]⟩
            rw [this] at hnopay
            cases hnopay
        · rw [if_neg hc] at h; cases h
    · rintro ⟨hmem, htime, hnopay, hcard⟩
      have hcond : (decide (nowMs - expirySeconds * 1000 < pr.createdAt)
          && !(db.payments.any (fun pm => pm.paymentRequestUuid == pr.uuid))) = true := by
        rw [Bool.and_eq_true]
        refine ⟨decide_eq_true (by omega), ?_⟩
        have : db.payments.any (fun pm => pm.paymentRequestUuid == pr.uuid) = false :=
          List.any_eq_false.mpr (fun pm hpm => by simpa using hnopay pm hpm)
        rw [this]; rfl
      unfold getExtantPaymentRequestByUuid
      rw [find?_key_unique PaymentRequest.uuid hnd hmem]
      show (if (decide (nowMs - expirySeconds * 1000 < pr.createdAt)
          && !(db.payments.any (fun pm => pm.paymentRequestUuid == pr.uuid))) = true
        then (db.cards.find? (fun cd => cd.uuid == pr.cardUuid)).map (fun cd => (pr, cd))
        else none) = some (pr, card)
      rw [if_pos hcond, hcard]
      rfl
  · intro hmem
    have hpay : (addPaymentsForPaymentRequest db pr tokens createdAt).payments.any
        (fun pm => pm.paymentRequestUuid == pr.uuid) = true := by
      cases tokens with
      | nil => exact absurd rfl htk
      | cons t0 ts =>
        have hmempm : ({ cardUuid := pr.cardUuid, token := t0.1, amount := t0.2,
                         paymentRequestUuid := pr.uuid, createdAt := createdAt } : Payment)
            ∈ (addPaymentsForPaymentRequest db pr (t0 :: ts) createdAt).payments :=
          List.mem_append_right _ (List.mem_map_of_mem _ (List.mem_cons_self t0 ts))
        exact List.any_eq_true.mpr ⟨_, hmempm, by simp⟩
    have hpr : (addPaymentsForPaymentRequest db pr tokens createdAt).paymentRequests
        = db.paymentRequests := rfl
    unfold getExtantPaymentRequestByUuid
    rw [hpr, find?_key_unique PaymentRequest.uuid hnd hmem]
    show (if (decide (nowMs - expirySeconds * 1000 < pr.createdAt)
        && !((addPaymentsForPaymentRequest db pr tokens createdAt).payments.any
          (fun pm => pm.paymentRequestUuid == pr.uuid))) = true
      then ((addPaymentsForPaymentRequest db pr tokens createdAt).cards.find?
          (fun cd => cd.uuid == pr.cardUuid)).map (fun cd => (pr, cd))
      else none) = none
    rw [hpay]
    simp

/-- Witness for C3: on the concrete store `db5`, the lookup of `prW`'s uuid
succeeds while fresh and fails after its payment is recorded. -/
theorem claim_C3_witness :
    (db5.paymentRequests.map PaymentRequest.uuid).Nodup ∧
    ([(defaultToken, (1000 : Int))] ≠ ([] : List (String × Int))) ∧
    getExtantPaymentRequestByUuid 60 1000 db5 prW.uuid = some (prW, cardW5) ∧
    getExtantPaymentRequestByUuid 60 1000
      (addPaymentsForPaymentRequest db5 prW [(defaultToken, 1000)] 5) prW.uuid = none := by
  refine ⟨by decide, by decide, ?_, ?_⟩
  · exact (claim_C3_payment_request_single_use 60 1000 5 db5 prW cardW5
      [(defaultToken, 1000)] (by decide) (by decide)).1.mpr
      ⟨by decide, by decide, by decide, by decide⟩
  · exact (claim_C3_payment_request_single_use 60 1000 5 db5 prW cardW5
      [(defaultToken, 1000)] (by decide) (by decide)).2 (by decide)

/-! ## C4: getLimits computes per-token minima of the remaining amounts -/

theorem assocLookup_filterMap_keys {keys : List String}
    {F : String → Option (String × Int)}
    (hF : ∀ k p, F k = some p → p.1 = k) (hnd : keys.Nodup) (t : String) :
    assocLookup (keys.filterMap F) t = if t ∈ keys then (F t).map Prod.snd else none := by
  induction keys with
  | nil => simp [assocLookup]
  | cons k ks ih =>
    rcases List.nodup_cons.mp hnd with ⟨hk, hks⟩
    rw [List.filterMap_cons]
    by_cases hkt : t = k
    · subst hkt
      rw [if_pos (List.mem_cons_self t ks)]
      cases hFk : F t with
      | none =>
        show assocLookup (ks.filterMap F) t = Option.map Prod.snd none
        rw [ih hks, if_neg hk]
        rfl
      | some pk =>
        have hpk := hF t pk hFk
        show assocLookup (pk :: ks.filterMap F) t = Option.map Prod.snd (some pk)
        unfold assocLookup
        rw [List.find?_cons_of_pos _ (by simp [hpk])]
    · have hiff : (t ∈ k :: ks) ↔ (t ∈ ks) := by
        constructor
        · intro h
          rcases List.mem_cons.mp h with h | h
          · exact absurd h hkt
          · exact h
        · exact List.mem_cons_of_mem k
      cases hFk : F k with
      | none =>
        show assocLookup (ks.filterMap F) t = if t ∈ k :: ks then (F t).map Prod.snd else none
        rw [ih hks]
        exact (if_congr hiff rfl rfl).symm
      | some pk =>
        have hpk := hF k pk hFk
        show assocLookup (pk :: ks.filterMap F) t
          = if t ∈ k :: ks then (F t).map Prod.snd else none
        unfold assocLookup
        rw [List.find?_cons_of_neg _ (by simp [hpk]; exact fun h => hkt h.symm)]
        have hih := ih hks
        unfold assocLookup at hih
        rw [hih]
        exact (if_congr hiff rfl rfl).symm

theorem foldl_min_mem_le (r : Int) (rs : List Int) :
    rs.foldl min r ∈ r :: rs ∧ ∀ x ∈ r :: rs, rs.foldl min r ≤ x := by
  induction rs generalizing r with
  | nil => simp
  | cons b bs ih =>
    obtain ⟨hmem, hle⟩ := ih (min r b)
    constructor
    · rw [List.foldl_cons]
      rcases List.mem_cons.mp hmem with h | h
      · rcases min_choice r b with hm | hm
        · rw [h, hm]
          exact List.mem_cons_self r (b :: bs)
        · rw [h, hm]
          exact List.mem_cons_of_mem r (List.mem_cons_self b bs)
      · exact List.mem_cons_of_mem r (List.mem_cons_of_mem b h)
    · intro x hx
      rw [List.foldl_cons]
      rcases List.mem_cons.mp hx with h | h
      · rw [h]
        exact le_trans (hle _ (List.mem_cons_self _ _)) (min_le_left r b)
      · rcases List.mem_cons.mp h with h2 | h2
        · rw [h2]
          exact le_trans (hle _ (List.mem_cons_self _ _)) (min_le_right r b)
        · exact hle _ (List.mem_cons_of_mem _ h2)

theorem lookup_minRows (rows : List (String × Int)) (t : String) :
    assocLookup (((rows.map Prod.fst).dedup).filterMap (fun k =>
        match (rows.filter (fun r => r.1 == k)).map Prod.snd with
        | [] => none
        | r :: rs => if 0 < rs.foldl min r then some (k, rs.foldl min r) else none)) t
      = (match (rows.filter (fun r => r.1 == t)).map Prod.snd with
        | [] => none
        | r :: rs => if 0 < rs.foldl min r then some (rs.foldl min r) else none) := by
  have hF : ∀ k p, (match (rows.filter (fun r => r.1 == k)).map Prod.snd with
      | [] => none
      | r :: rs => if 0 < rs.foldl min r then some (k, rs.foldl min r) else none) = some p →
      p.1 = k := by
    intro k p
    cases hm : (rows.filter (fun r => r.1 == k)).map Prod.snd with
    | nil => intro hkp; cases hkp
    | cons r rs =>
      intro hkp
      replace hkp : (if 0 < rs.foldl min r then some (k, rs.foldl min r) else none)
          = some p := hkp
      by_cases hpos : 0 < rs.foldl min r
      · rw [if_pos hpos] at hkp
        cases hkp
        rfl
      · rw [if_neg hpos] at hkp
        cases hkp
  rw [assocLookup_filterMap_keys hF (List.nodup_dedup _) t]
  by_cases hmem : t ∈ (rows.map Prod.fst).dedup
  · rw [if_pos hmem]
    show ((match (rows.filter (fun r => r.1 == t)).map Prod.snd with
      | [] => none
      | r :: rs =>
        if 0 < rs.foldl min r then some (t, rs.foldl min r) else none) :
          Option (String × Int)).map Prod.snd
      = (match (rows.filter (fun r => r.1 == t)).map Prod.snd with
        | [] => none
        | r :: rs => if 0 < rs.foldl min r then some (rs.foldl min r) else none)
    cases hm : (rows.filter (fun r => r.1 == t)).map Prod.snd with
    | nil => rfl
    | cons r rs =>
      show ((if 0 < rs.foldl min r then some (t, rs.foldl min r) else none).map Prod.snd)
        = if 0 < rs.foldl min r then some (rs.foldl min r) else none
      by_cases hpos : 0 < rs.foldl min r
      · simp only [if_pos hpos]
        rfl
      · simp only [if_neg hpos]
        rfl
  · rw [if_neg hmem]
    have hnil : rows.filter (fun r => r.1 == t) = [] := by
      refine List.filter_eq_nil_iff.mpr (fun r hr hrt => ?_)
      exact hmem (List.mem_dedup.mpr (List.mem_map.mpr ⟨r, hr, eq_of_beq hrt⟩))
    rw [hnil]
    rfl

theorem getLimits_lookup (db : DB) (card : Card) (tokens : List String) (now : Int)
    (t : String) (ht : t ∈ (if tokens.isEmpty then [defaultToken] else tokens)) :
    assocLookup (getLimits db card tokens now) t
      = (match cardTokenRemainings db card t now with
        | [] => none
        | r :: rs => if 0 < rs.foldl min r then some (rs.foldl min r) else none) := by
  have hcont : (if tokens.isEmpty then [defaultToken] else tokens).contains t = true :=
    List.elem_eq_true_of_mem ht
  have hfil : ((limitRows db card tokens now).filter (fun r => r.1 == t)).map Prod.snd
      = cardTokenRemainings db card t now := by
    unfold limitRows cardTokenRemainings
    rw [List.map_filter, List.map_map, List.filter_filter]
    have hpred : ∀ l ∈ db.limits,
        (((fun r => r.1 == t) ∘ fun l => (l.token, limitRemaining db l now)) l
          && ((if tokens.isEmpty then [defaultToken] else tokens).contains l.token
            && l.cardUuid == card.uuid))
        = (l.token == t && l.cardUuid == card.uuid) := by
      intro l _
      have hcomp : ((fun r => r.1 == t) ∘ fun l => (l.token, limitRemaining db l now)) l
          = (l.token == t) := rfl
      rw [hcomp]
      by_cases hlt : (l.token == t) = true
      · have hteq : l.token = t := eq_of_beq hlt
        rw [hlt, hteq, hcont]
        simp
      · rw [Bool.eq_false_iff.mpr hlt]
        simp
    rw [List.filter_congr' hpred]
    rfl
  have h0 : getLimits db card tokens now
      = ((limitRows db card tokens now).map Prod.fst).dedup.filterMap (fun k =>
          match ((limitRows db card tokens now).filter (fun r => r.1 == k)).map Prod.snd with
          | [] => none
          | r :: rs => if 0 < rs.foldl min r then some (k, rs.foldl min r) else none) := rfl
  rw [h0, lookup_minRows (limitRows db card tokens now) t, hfil]

/-- C4: for every requested token `t` (of the defaulted token list),
`getLimits` binds `t` exactly when the minimum, over the card's limits in
`t`, of `amount - (sum of the card's payments in `t` within the limit's
window)` is strictly positive, and then binds it to that minimum; a token
whose minimum is not positive — or that has no limits at all — is absent
from the result. -/
theorem claim_C4_getLimits_min_positive (db : DB) (card : Card)
    (tokens : List String) (now : Int) (t : String)
    (ht : t ∈ (if tokens.isEmpty then [defaultToken] else tokens)) :
    (∀ v : Int, assocLookup (getLimits db card tokens now) t = some v ↔
      (v ∈ cardTokenRemainings db card t now ∧
       (∀ x ∈ cardTokenRemainings db card t now, v ≤ x) ∧ 0 < v)) ∧
    (assocLookup (getLimits db card tokens now) t = none ↔
      (cardTokenRemainings db card t now = [] ∨
       ∃ x ∈ cardTokenRemainings db card t now, x ≤ 0)) := by
  rw [getLimits_lookup db card tokens now t ht]
  cases hrems : cardTokenRemainings db card t now with
  | nil =>
    constructor
    · intro v
      constructor
      · intro hv
        cases hv
      · rintro ⟨hvmem, -, -⟩
        cases hvmem
    · constructor
      · intro _
        exact Or.inl rfl
      · intro _
        rfl
  | cons r rs =>
    obtain ⟨hmem, hle⟩ := foldl_min_mem_le r rs
    have hred : (match r :: rs with
        | [] => (none : Option Int)
        | r :: rs => if 0 < rs.foldl min r then some (rs.foldl min r) else none)
      = if 0 < rs.foldl min r then some (rs.foldl min r) else none := rfl
    rw [hred]
    by_cases hpos : 0 < rs.foldl min r
    · rw [if_pos hpos]
      constructor
      · intro v
        constructor
        · intro hv
          have : rs.foldl min r = v := Option.some.inj hv
          subst this
          exact ⟨hmem, hle, hpos⟩
        · rintro ⟨hvmem, hvle, hvpos⟩
          have h1 : v ≤ rs.foldl min r := hvle _ hmem
          have h2 : rs.foldl min r ≤ v := hle v hvmem
          rw [le_antisymm h2 h1]
      · constructor
        · intro hv
          cases hv
        · rintro (h | ⟨x, hx, hx0⟩)
          · cases h
          · have := hle x hx
            omega
    · rw [if_neg hpos]
      constructor
      · intro v
        constructor
        · intro hv
          cases hv
        · rintro ⟨hvmem, hvle, hvpos⟩
          have h1 : v ≤ rs.foldl min r := hvle _ hmem
          omega
      · constructor
        · intro _
          exact Or.inr ⟨rs.foldl min r, hmem, by omega⟩
        · intro _
          rfl

/-- Witness for C4: on the concrete store `db5` (one BTC limit of 5000
over 100 seconds, no payments), the BTC entry is the single remaining
amount 5000. -/
theorem claim_C4_witness :
    ("BTC" ∈ (if (["BTC"] : List String).isEmpty then [defaultToken] else ["BTC"])) ∧
    (assocLookup (getLimits db5 cardW5 ["BTC"] 5) "BTC" = some 5000 ↔
      ((5000 : Int) ∈ cardTokenRemainings db5 cardW5 "BTC" 5 ∧
       (∀ x ∈ cardTokenRemainings db5 cardW5 "BTC" 5, (5000 : Int) ≤ x) ∧
       (0 : Int) < 5000)) ∧
    assocLookup (getLimits db5 cardW5 ["BTC"] 5) "BTC" = some 5000 := by
  refine ⟨by decide, (claim_C4_getLimits_min_positive db5 cardW5 ["BTC"] 5 "BTC"
    (by decide)).1 5000, ?_⟩
  exact ((claim_C4_getLimits_min_positive db5 cardW5 ["BTC"] 5 "BTC"
    (by decide)).1 5000).mpr (by decide)

/-! ## C5: the pay callback authorizes only fully-checked withdrawals -/

/-- C5: `generateTransactionEvent` returns an event (and the handler then
answers 200) only when every check passed: both parameters present, the
invoice amount extracted and unexpired, `k1` decoding to the uuid of an
extant unconsumed unexpired payment request whose card has a holder, the
stored response tagged `withdrawRequest`, the amount within
`maxWithdrawable`, within the remaining BTC limit and within the holder's
BTC balance (absent limit or balance entries count as 0), and a currently
valid delegation on file; and on any failed check the handler answers 400
and the store is unchanged — no payment row is inserted. -/
theorem claim_C5_pay_authorization (env : PayEnv) (db : DB) (k1 pr : Option String) :
    (∀ ev db', generateTransactionEvent env db k1 pr = .ok (ev, db') →
      ∃ k1s prs uuid paymentRequest card holder,
        k1 = some k1s ∧ pr = some prs ∧
        extractMsatsFromBolt11PR env prs = some ev.msats ∧
        suuid2uuid k1s = some uuid ∧
        getExtantPaymentRequestByUuid env.expirySeconds env.nowMs db uuid
          = some (paymentRequest, card) ∧
        card.holderPubKey = some holder ∧
        paymentRequest.response.tag = "withdrawRequest" ∧
        (∀ n : Int, ev.msats = .num n →
          (∀ M, paymentRequest.response.maxWithdrawable = some M → n ≤ M) ∧
          n ≤ (assocLookup (getLimits db card [defaultToken] env.nowSec)
                defaultToken).getD 0 ∧
          n ≤ (env.balances holder defaultToken).getD 0) ∧
        getCardDelegation db env.nowMs paymentRequest.cardUuid = some ev.delegation ∧
        ev.kind = 1112 ∧
        (∀ n : Int, ev.msats = .num n →
          db' = addPaymentsForPaymentRequest db paymentRequest
            [(defaultToken, n)] env.paymentCreatedAt)) ∧
    (∀ e, generateTransactionEvent env db k1 pr = .error e →
      payGetHandler env db k1 pr = (400, db)) := by
  constructor
  · intro ev db' hok
    cases k1 with
    | none => cases hok
    | some k1s =>
      cases pr with
      | none => cases hok
      | some prs =>
        unfold generateTransactionEvent at hok
        split at hok
        case h_2 _ _ hx => exact (hx k1s prs rfl rfl).elim
        rename_i k1x prx hk1 hpr
        replace hk1 : k1s = k1x := by injection hk1
        replace hpr : prs = prx := by injection hpr
        subst hk1
        subst hpr
        split at hok
        · cases hok
        rename_i msats hm
        split at hok
        · cases hok
        rename_i uuid hs
        split at hok
        · cases hok
        rename_i pc paymentRequest card hg
        split at hok
        · cases hok
        rename_i holder hh
        split at hok
        · cases hok
        rename_i htag
        split at hok
        · cases hok
        rename_i hmax
        split at hok
        · cases hok
        rename_i hlim
        split at hok
        · cases hok
        rename_i hbal
        split at hok
        · cases hok
        rename_i delegation hd
        have htag' : paymentRequest.response.tag = "withdrawRequest" := not_not.mp htag
        refine ⟨k1s, prs, uuid, paymentRequest, card, holder, rfl, rfl, ?_⟩
        cases msats with
        | nan =>
          rename_i hm hmax hlim hbal hok
          replace hok : (Except.ok
              ({ createdAt := env.nowSec, msats := .nan, bolt11 := prs,
                 delegation := delegation, kind := 1112 }, db) :
              Except TransactionError (TxEvent × DB)) = .ok (ev, db') := hok
          injection hok with hok
          rw [Prod.mk.injEq] at hok
          obtain ⟨hev, hdb⟩ := hok
          subst hev
          subst hdb
          refine ⟨hm, hs, hg, hh, htag', ?_, hd, rfl, ?_⟩
          · intro n hn
            cases hn
          · intro n hn
            cases hn
        | num n0 =>
          rename_i hm hmax hlim hbal hok
          replace hok : (Except.ok
              ({ createdAt := env.nowSec, msats := .num n0, bolt11 := prs,
                 delegation := delegation, kind := 1112 },
               addPaymentsForPaymentRequest db paymentRequest
                 [(defaultToken, n0)] env.paymentCreatedAt) :
              Except TransactionError (TxEvent × DB)) = .ok (ev, db') := hok
          injection hok with hok
          rw [Prod.mk.injEq] at hok
          obtain ⟨hev, hdb⟩ := hok
          subst hev
          subst hdb
          replace hmax : jsLtOptNum paymentRequest.response.maxWithdrawable (.num n0)
              = false := eq_false_of_ne_true hmax
          replace hlim : jsLtNum (.num ((assocLookup
              (getLimits db card [defaultToken] env.nowSec) defaultToken).getD 0))
              (.num n0) = false := eq_false_of_ne_true hlim
          replace hbal : jsLtNum (.num ((env.balances holder defaultToken).getD 0))
              (.num n0) = false := eq_false_of_ne_true hbal
          refine ⟨hm, hs, hg, hh, htag', ?_, hd, rfl, ?_⟩
          · intro n hn
            replace hn : n0 = n := by injection hn
            subst hn
            refine ⟨?_, ?_, ?_⟩
            · intro M hM
              rw [hM] at hmax
              unfold jsLtOptNum at hmax
              have := of_decide_eq_false hmax
              omega
            · unfold jsLtNum at hlim
              have := of_decide_eq_false hlim
              omega
            · unfold jsLtNum at hbal
              have := of_decide_eq_false hbal
              omega
          · intro n hn
            replace hn : n0 = n := by injection hn
            subst hn
            rfl
  · intro e he
    unfold payGetHandler
    rw [he]

/-- Witness for C5: in the concrete scenario `env5`/`db5` (a 1000-msat
invoice against payment request `prW` with `maxWithdrawable` 2000, a BTC
limit leaving 5000, balance 5000 and delegation `delW`), the event is
produced and the authorization theorem yields all the checks. -/
theorem claim_C5_witness :
    generateTransactionEvent env5 db5 (some "AAAAAAAAAAAAAAAAAAAAAA") (some "lnbc1")
      = .ok (txW, db5W) ∧
    (∃ k1s prs uuid paymentRequest card holder,
      (some "AAAAAAAAAAAAAAAAAAAAAA" : Option String) = some k1s ∧
      (some "lnbc1" : Option String) = some prs ∧
      extractMsatsFromBolt11PR env5 prs = some txW.msats ∧
      suuid2uuid k1s = some uuid ∧
      getExtantPaymentRequestByUuid env5.expirySeconds env5.nowMs db5 uuid
        = some (paymentRequest, card) ∧
      card.holderPubKey = some holder ∧
      paymentRequest.response.tag = "withdrawRequest" ∧
      (∀ n : Int, txW.msats = .num n →
        (∀ M, paymentRequest.response.maxWithdrawable = some M → n ≤ M) ∧
        n ≤ (assocLookup (getLimits db5 card [defaultToken] env5.nowSec)
              defaultToken).getD 0 ∧
        n ≤ (env5.balances holder defaultToken).getD 0) ∧
      getCardDelegation db5 env5.nowMs paymentRequest.cardUuid = some txW.delegation ∧
      txW.kind = 1112 ∧
      (∀ n : Int, txW.msats = .num n →
        db5W = addPaymentsForPaymentRequest db5 paymentRequest
          [(defaultToken, n)] env5.paymentCreatedAt)) :=
  ⟨by decide,
   (claim_C5_pay_authorization env5 db5 (some "AAAAAAAAAAAAAAAAAAAAAA")
     (some "lnbc1")).1 txW db5W (by decide)⟩

/-! ## C10: the limits guard of the scan handlers never fires -/

theorem jsObjLengthIsZero_getLimits (db : DB) (card : Card) (tokens : List String)
    (now : Int) : jsObjLengthIsZero (getLimits db card tokens now) = false := by
  have h0 : getLimits db card tokens now
      = ((limitRows db card tokens now).map Prod.fst).dedup.filterMap (fun k =>
          match ((limitRows db card tokens now).filter (fun r => r.1 == k)).map Prod.snd with
          | [] => none
          | r :: rs => if 0 < rs.foldl min r then some (k, rs.foldl min r) else none) := rfl
  unfold jsObjLengthIsZero
  rw [h0, lookup_minRows (limitRows db card tokens now) "length"]
  cases hm : ((limitRows db card tokens now).filter (fun r => r.1 == "length")).map
      Prod.snd with
  | nil => rfl
  | cons r rs =>
    show (match (if 0 < rs.foldl min r then some (rs.foldl min r) else none :
        Option Int) with
      | some v => v == 0
      | none => false) = false
    by_cases hpos : 0 < rs.foldl min r
    · rw [if_pos hpos]
      show (rs.foldl min r == 0) = false
      have hne : rs.foldl min r ≠ 0 := by omega
      simp [hne]
    · rw [if_neg hpos]

/-- C10: whenever SUN verification succeeds and the card passes
`checkStatus`, both scan handlers answer 200 — the `Limits exceeded` 400
branch is unreachable because its guard reads the `length` property of a
plain object, which is never the number 0 (`getLimits` binds only strictly
positive values, so even a token literally named `length` cannot yield 0) —
and when `getLimits` is empty the standard response simply omits
`minWithdrawable` and `maxWithdrawable`. -/
theorem claim_C10_scan_always_ok (env : ScanEnv) (db : DB) (p c : Option String)
    (headerTokens : Option String) (ntag : Ntag424) (db1 : DB) (card : Card)
    (hver : retrieveNtag424FromPC env.cenv env.k1Hex db p c = .ok (ntag, db1))
    (hcard : db1.cards.find? (fun cd => cd.ntag424Cid == ntag.cid) = some card)
    (hst : checkStatus card = true) :
    (∃ resp db2, handleScan env db p c = (.okResponse resp, db2) ∧
      (getLimits db1 card [defaultToken] env.sqlNow = [] →
        resp.minWithdrawable = none ∧ resp.maxWithdrawable = none)) ∧
    (∃ resp2 db3, handleExtendedScan env headerTokens db p c
      = (.okResponse resp2, db3)) := by
  constructor
  · unfold handleScan
    split
    · rename_i e heq
      rw [hver] at heq
      cases heq
    · rename_i ntag2 db1x heq
      rw [hver] at heq
      injection heq with heq
      rw [Prod.mk.injEq] at heq
      obtain ⟨hn2, hd2⟩ := heq
      subst hn2
      subst hd2
      split
      · rename_i heq2
        rw [hcard] at heq2
        cases heq2
      · rename_i card2 heq2
        rw [hcard] at heq2
        injection heq2 with heq2
        subst heq2
        split
        · rename_i hbad
          rw [hst] at hbad
          cases hbad
        · simp only []
          split
          · rename_i hjs
            rw [jsObjLengthIsZero_getLimits] at hjs
            cases hjs
          · refine ⟨_, _, rfl, ?_⟩
            intro hempty
            show ((assocLookup (getLimits db1 card [defaultToken] env.sqlNow)
                defaultToken).map (fun _ => (0 : Int)) = none) ∧
              assocLookup (getLimits db1 card [defaultToken] env.sqlNow)
                defaultToken = none
            rw [hempty]
            exact ⟨rfl, rfl⟩
  · unfold handleExtendedScan
    split
    · rename_i e heq
      rw [hver] at heq
      cases heq
    · rename_i ntag2 db1x heq
      rw [hver] at heq
      injection heq with heq
      rw [Prod.mk.injEq] at heq
      obtain ⟨hn2, hd2⟩ := heq
      subst hn2
      subst hd2
      split
      · rename_i heq2
        rw [hcard] at heq2
        cases heq2
      · rename_i card2 heq2
        rw [hcard] at heq2
        injection heq2 with heq2
        subst heq2
        split
        · rename_i hbad
          rw [hst] at hbad
          cases hbad
        · simp only []
          split
          · rename_i hjs
            rw [jsObjLengthIsZero_getLimits] at hjs
            cases hjs
          · exact ⟨_, _, rfl⟩

/-- Witness for C10: the concrete scan of `db10` (card enabled with a
holder and no limit rows at all), whose SUN parameters carry counter 11
against the stored 9: both handlers answer 200, and the standard response
omits the withdrawable bounds since `getLimits` is empty. -/
theorem claim_C10_witness :
    retrieveNtag424FromPC env10.cenv env10.k1Hex db10
        (some "C7010203040506070B00000000000000") (some "0000000000000000")
      = .ok (ntagW, db10W) ∧
    db10W.cards.find? (fun cd => cd.ntag424Cid == ntagW.cid) = some cardW9 ∧
    checkStatus cardW9 = true ∧
    ((∃ resp db2, handleScan env10 db10
        (some "C7010203040506070B00000000000000") (some "0000000000000000")
        = (.okResponse resp, db2) ∧
        (getLimits db10W cardW9 [defaultToken] env10.sqlNow = [] →
          resp.minWithdrawable = none ∧ resp.maxWithdrawable = none)) ∧
     (∃ resp2 db3, handleExtendedScan env10 none db10
        (some "C7010203040506070B00000000000000") (some "0000000000000000")
        = (.okResponse resp2, db3))) :=
  ⟨by decide, by decide, by decide,
   claim_C10_scan_always_ok env10 db10
     (some "C7010203040506070B00000000000000") (some "0000000000000000") none
     ntagW db10W cardW9 (by decide) (by decide) (by decide)⟩

end CardModule
